import Mathlib

/-! k8s-bigip-ctlr, package crmanager: declaration synthesis and node polling

A shallow embedding of `pkg/crmanager/backend.go` and
`pkg/crmanager/node_poll_handler.go`, followed by theorems about it.

Conventions of the embedding:

* Go `string` is `String`; every separator the code splits on is a single
  ASCII character, so splitting works on the character list.
* Go `int` is `Int` (64-bit range is enforced where `strconv.Atoi` saturates).
* A Go slice is a `List`; where `reflect.DeepEqual` can observe the
  difference between the nil slice and an empty one, the slice is an
  `Option (List _)` with `none` for nil.
* A Go map with string keys is an association list with distinct keys;
  `m[k] = v` is `mapSet`, `m[k]` is `mapGet`.
* mutation of a receiver is explicit state passing.
-/

set_option autoImplicit false

namespace crmanager

/-! ## Standard library functions used by the package -/

/-- Go `strings.Split(s, sep)` for a one-character separator, on character
lists: the pieces between the separators, always at least one piece. -/
def splitChars (sep : Char) : List Char → List (List Char)
  | [] => [[]]
  | c :: cs =>
    if c = sep then [] :: splitChars sep cs
    else
      match splitChars sep cs with
      | [] => [[c]]
      | p :: ps => (c :: p) :: ps

/-- Go `strings.Split(s, sep)` for a one-character separator. -/
def Split (s : String) (sep : Char) : List String :=
  (splitChars sep s.data).map String.mk

/-- The Go expression `xs[len(xs)-1]` on the result of `strings.Split`, which
is never empty. -/
def lastSegment (s : String) (sep : Char) : String :=
  (Split s sep).getLast?.getD ""

/-- The constant `maxUint64` of `strconv`. -/
def maxUint64 : Nat := 2 ^ 64 - 1

/-- The digit loop of Go `strconv.ParseUint(s, 10, 64)`: `none` is a syntax
error (a character that is not a decimal digit); on overflow the loop stops
at once with `maxUint64` (a range error, whatever follows). -/
def parseUintLoop : List Char → Nat → Option Nat
  | [], n => some n
  | c :: cs, n =>
    if c.isDigit then
      if n ≥ maxUint64 / 10 + 1 then some maxUint64
      else
        let n1 := n * 10 + (c.toNat - 48)
        if n1 > maxUint64 then some maxUint64 else parseUintLoop cs n1
    else none

/-- Go `strconv.Atoi` on a 64-bit platform, error dropped as in
`port, _ := strconv.Atoi(..)`: an optional sign followed by at least one
decimal digit; the value is 0 on a syntax error and saturates at the ends of
the `int` range on a range error. -/
def Atoi (s : String) : Int :=
  match s.data with
  | [] => 0
  | c :: cs =>
    let neg := c = '-'
    let ds := if c = '+' ∨ c = '-' then cs else c :: cs
    match ds with
    | [] => 0
    | d :: ds' =>
      match parseUintLoop (d :: ds') 0 with
      | none => 0
      | some un =>
        if neg then
          if un > 2 ^ 63 then -(2 ^ 63 : Int) else -(un : Int)
        else
          if un ≥ 2 ^ 63 then (2 ^ 63 : Int) - 1 else (un : Int)

/-- Go `strconv.Itoa`: decimal digits, with a leading minus sign for a
negative number. -/
def Itoa (i : Int) : String :=
  match i with
  | Int.ofNat n => Nat.repr n
  | Int.negSucc n => "-" ++ Nat.repr (n + 1)

/-- Go `fmt.Sprintf("/%s/%s/%s", a, b, c)`. -/
def sprintfPath (a b c : String) : String :=
  "/" ++ a ++ "/" ++ b ++ "/" ++ c

/-! ## backend.go -/

/-- The constant `as3SharedApplication`. -/
def as3SharedApplication : String := "Shared"

/-- Function `extractVirtualAddressAndPort`: the last '/'-segment of the
destination, split on ':'; address and port when there are exactly two parts,
else the empty address and port 0 (after logging an error). -/
def extractVirtualAddressAndPort (str : String) : String × Int :=
  let ipPort := Split (lastSegment str '/') ':'
  match ipPort with
  | [ip, port] => (ip, Atoi port)
  | _ => ("", 0)


/-! ### Go maps with string keys -/

/-- The Go map read `m[k]` with the comma-ok result: `none` when the key is
absent. -/
def mapGet {α : Type} : List (String × α) → String → Option α
  | [], _ => none
  | (k', v) :: rest, k => if k' = k then some v else mapGet rest k

/-- The Go map write `m[k] = v`: replaces the value of an existing key, adds
the key otherwise. -/
def mapSet {α : Type} : List (String × α) → String → α → List (String × α)
  | [], k, v => [(k, v)]
  | (k', v') :: rest, k, v =>
    if k' = k then (k, v) :: rest else (k', v') :: mapSet rest k v

/-- The keys of a Go map. -/
def mapKeys {α : Type} (m : List (String × α)) : List String :=
  m.map Prod.fst

/-! ### Resource configuration (input of the synthesis) -/

/-- Modelled from the spec: the match predicate of a rule; its type is declared
outside `src`, the fields are those `createRuleCondition` reads. -/
structure Condition where
  Name : String := ""
  Host : Bool := false
  HTTPHost : Bool := false
  HTTPURI : Bool := false
  PathSegment : Bool := false
  Path : Bool := false
  Equals : Bool := false
  Request : Bool := false
  Index : Int := 0
  Values : List String := []
  deriving DecidableEq, Repr

/-- Modelled from the spec: the effect of a rule; its type is declared outside
`src`, the fields are those `createRuleAction` reads. -/
structure Action where
  Forward : Bool := false
  Request : Bool := false
  Redirect : Bool := false
  HTTPHost : Bool := false
  HTTPURI : Bool := false
  Replace : Bool := false
  Location : String := ""
  Value : String := ""
  Pool : String := ""
  deriving DecidableEq, Repr

/-- Modelled from the spec: one policy rule (type `Rule`, declared outside
`src`): a name, ordered conditions and ordered actions. -/
structure Rule where
  Name : String := ""
  Conditions : List Condition := []
  Actions : List Action := []
  deriving DecidableEq, Repr

/-- Modelled from the spec: a named ordered rule set (declared outside `src`);
`Strategy` is a reference string. -/
structure Policy where
  Name : String := ""
  Strategy : String := ""
  Rules : List Rule := []
  deriving DecidableEq, Repr

/-- Modelled from the spec: one backend endpoint (declared outside `src`). -/
structure Member where
  Address : String := ""
  Port : Int := 0
  deriving DecidableEq, Repr

/-- Modelled from the spec: a backend member group (declared outside `src`). -/
structure Pool where
  Name : String := ""
  Members : List Member := []
  deriving DecidableEq, Repr

/-- Modelled from the spec: an entry of `Virtual.Policies` (declared outside
`src`); only its name is read. -/
structure nameRef where
  Name : String := ""
  deriving DecidableEq, Repr

/-- Modelled from the spec: the virtual listener of a resource (declared
outside `src`), with the fields `createServiceDecl` reads. -/
structure Virtual where
  Name : String := ""
  PoolName : String := ""
  Destination : String := ""
  IpProtocol : String := ""
  Policies : List nameRef := []
  IRules : List String := []
  deriving DecidableEq, Repr

/-- Modelled from the spec: one routing resource (type `ResourceConfig`,
declared outside `src`). -/
structure ResourceConfig where
  Virtual : Virtual := {}
  Pools : List Pool := []
  Policies : List Policy := []
  deriving DecidableEq, Repr

/-- The type `ResourceConfigs`, a slice of resource configurations. -/
abbrev ResourceConfigs := List ResourceConfig

/-! ### Declaration objects (output of the synthesis) -/

/-- Modelled from the spec: type `as3ResourcePointer` (declared outside
`src`): a reference by full path (`BigIP`) or by name (`Use`). -/
structure as3ResourcePointer where
  BigIP : String := ""
  Use : String := ""
  deriving DecidableEq, Repr

/-- Modelled from the spec: type `as3MultiTypeParam` (declared outside `src`),
a Go `interface{}` holding nothing, a string or a slice of resource pointers. -/
inductive as3MultiTypeParam where
  | unset
  | str (s : String)
  | pointers (ps : List as3ResourcePointer)
  deriving DecidableEq, Repr

/-- Modelled from the spec: type `as3PolicyCompareString` (declared outside
`src`). -/
structure as3PolicyCompareString where
  Values : List String := []
  Operand : String := ""
  deriving DecidableEq, Repr

/-- Modelled from the spec: type `as3Condition` (declared outside `src`); the
three comparison fields are pointers, `none` is nil. -/
structure as3Condition where
  Name : String := ""
  Typ : String := ""
  Event : String := ""
  Index : Int := 0
  All : Option as3PolicyCompareString := none
  PathSegment : Option as3PolicyCompareString := none
  Path : Option as3PolicyCompareString := none
  deriving DecidableEq, Repr

/-- Modelled from the spec: type `as3ActionReplaceMap` (declared outside
`src`). -/
structure as3ActionReplaceMap where
  Value : String := ""
  Name : String := ""
  deriving DecidableEq, Repr

/-- Modelled from the spec: type `as3ActionForwardSelect` (declared outside
`src`). -/
structure as3ActionForwardSelect where
  Pool : Option as3ResourcePointer := none
  deriving DecidableEq, Repr

/-- Modelled from the spec: type `as3Action` (declared outside `src`). -/
structure as3Action where
  Typ : String := ""
  Event : String := ""
  Location : String := ""
  Replace : Option as3ActionReplaceMap := none
  Select : Option as3ActionForwardSelect := none
  deriving DecidableEq, Repr

/-- Modelled from the spec: type `as3Rule` (declared outside `src`). -/
structure as3Rule where
  Name : String := ""
  Conditions : List as3Condition := []
  Actions : List as3Action := []
  deriving DecidableEq, Repr

/-- Modelled from the spec: type `as3EndpointPolicy` (declared outside
`src`). -/
structure as3EndpointPolicy where
  Class : String := ""
  Strategy : String := ""
  Rules : List as3Rule := []
  deriving DecidableEq, Repr

/-- Modelled from the spec: type `as3PoolMember` (declared outside `src`). -/
structure as3PoolMember where
  AddressDiscovery : String := ""
  ServicePort : Int := 0
  ServerAddresses : List String := []
  deriving DecidableEq, Repr

/-- Modelled from the spec: type `as3Pool` (declared outside `src`). -/
structure as3Pool where
  Class : String := ""
  Members : List as3PoolMember := []
  deriving DecidableEq, Repr

/-- Modelled from the spec: type `as3Service` (declared outside `src`), with
the fields `createServiceDecl` and `updateVirtualToHTTPS` assign. -/
structure as3Service where
  Layer4 : String := ""
  Source : String := ""
  TranslateServerAddress : Bool := false
  TranslateServerPort : Bool := false
  Class : String := ""
  VirtualAddresses : List String := []
  VirtualPort : Int := 0
  SNAT : String := ""
  PolicyEndpoint : as3MultiTypeParam := as3MultiTypeParam.unset
  IRules : List String := []
  Redirect80 : Option Bool := none
  Pool : String := ""
  deriving DecidableEq, Repr

/-- A value stored in the shared application map (`map[string]interface{}`):
a string, or one of the three object kinds the synthesis emits. -/
inductive as3Value where
  | str (s : String)
  | policy (ep : as3EndpointPolicy)
  | pool (p : as3Pool)
  | service (svc : as3Service)
  deriving DecidableEq, Repr

/-- The type `as3Application`, a map from object name to object. -/
abbrev as3Application := List (String × as3Value)

/-! ### Translation of rules -/

/-- The body of the loop of `createRuleCondition`: the declaration condition
built for one input condition `c`, for the port of the virtual. -/
def ruleConditionOf (c : Condition) (port : Int) : as3Condition :=
  let condition : as3Condition := {}
  let condition :=
    if c.Host then
      let condition := { condition with Name := "host" }
      -- For ports other then 80 and 443, attaching port number to host.
      let condition :=
        if port ≠ 80 ∧ port ≠ 443 then
          let values := c.Values.foldl
            (fun (values : List String) (v : String) => values ++ [v ++ ":" ++ Itoa port]) []
          { condition with All := some { Values := values } }
        else
          { condition with All := some { Values := c.Values } }
      let condition :=
        if c.HTTPHost then { condition with Typ := "httpHeader" } else condition
      if c.Equals then
        { condition with All := condition.All.map (fun a => { a with Operand := "equals" }) }
      else condition
    else if c.PathSegment then
      let condition := { condition with PathSegment := some { Values := c.Values } }
      let condition :=
        if c.Name ≠ "" then { condition with Name := c.Name } else condition
      let condition := { condition with Index := c.Index }
      let condition :=
        if c.HTTPURI then { condition with Typ := "httpUri" } else condition
      if c.Equals then
        { condition with
          PathSegment := condition.PathSegment.map (fun a => { a with Operand := "equals" }) }
      else condition
    else if c.Path then
      let condition := { condition with Path := some { Values := c.Values } }
      let condition :=
        if c.Name ≠ "" then { condition with Name := c.Name } else condition
      let condition := { condition with Index := c.Index }
      let condition :=
        if c.HTTPURI then { condition with Typ := "httpUri" } else condition
      if c.Equals then
        { condition with Path := condition.Path.map (fun a => { a with Operand := "equals" }) }
      else condition
    else condition
  if c.Request then { condition with Event := "request" } else condition

/-- Function `createRuleCondition`: appends one declaration condition per
condition of the rule to `rulesData.Conditions`. -/
def createRuleCondition (rl : Rule) (rulesData : as3Rule) (port : Int) : as3Rule :=
  rl.Conditions.foldl
    (fun (rd : as3Rule) (c : Condition) =>
      { rd with Conditions := rd.Conditions ++ [ruleConditionOf c port] })
    rulesData

/-- The body of the loop of `createRuleAction`: the declaration action built
for one input action `v`. -/
def ruleActionOf (v : Action) : as3Action :=
  let action : as3Action := {}
  let action := if v.Forward then { action with Typ := "forward" } else action
  let action := if v.Request then { action with Event := "request" } else action
  let action := if v.Redirect then { action with Typ := "httpRedirect" } else action
  let action := if v.HTTPHost then { action with Typ := "httpHeader" } else action
  let action := if v.HTTPURI then { action with Typ := "httpUri" } else action
  let action := if v.Location ≠ "" then { action with Location := v.Location } else action
  -- Handle hostname rewrite.
  let action :=
    if v.Replace ∧ v.HTTPHost then
      { action with Replace := some { Value := v.Value, Name := "host" } }
    else action
  -- handle uri rewrite.
  let action :=
    if v.Replace ∧ v.HTTPURI then
      { action with Replace := some { Value := v.Value } }
    else action
  if v.Pool ≠ "" then
    { action with Select := some { Pool := some { Use := lastSegment v.Pool '/' } } }
  else action

/-- Function `createRuleAction`: appends one declaration action per action of
the rule to `rulesData.Actions`. -/
def createRuleAction (rl : Rule) (rulesData : as3Rule) : as3Rule :=
  rl.Actions.foldl
    (fun (rd : as3Rule) (v : Action) =>
      { rd with Actions := rd.Actions ++ [ruleActionOf v] })
    rulesData

/-! ### Policies, pools and services -/

/-- The endpoint policy `createPoliciesDecl` builds for one policy: the inner
loop over the rules, starting from the zero value. -/
def endpointPolicyOf (pl : Policy) (port : Int) : as3EndpointPolicy :=
  pl.Rules.foldl
    (fun (ep : as3EndpointPolicy) (rl : Rule) =>
      let ep := { ep with Class := "Endpoint_Policy" }
      let ep := { ep with Strategy := lastSegment pl.Strategy '/' }
      let rulesData : as3Rule := { Name := rl.Name }
      let rulesData := createRuleCondition rl rulesData port
      let rulesData := createRuleAction rl rulesData
      { ep with Rules := ep.Rules ++ [rulesData] })
    {}

/-- Function `createPoliciesDecl`: stores one endpoint policy per policy of
the resource under the policy's name. -/
def createPoliciesDecl (cfg : ResourceConfig) (sharedApp : as3Application) :
    as3Application :=
  let port := (extractVirtualAddressAndPort cfg.Virtual.Destination).2
  cfg.Policies.foldl
    (fun (app : as3Application) (pl : Policy) =>
      mapSet app pl.Name (as3Value.policy (endpointPolicyOf pl port)))
    sharedApp

/-- The pool object `createPoolDecl` builds for one pool. -/
def poolOf (v : Pool) : as3Pool :=
  let pool : as3Pool := { Class := "Pool" }
  v.Members.foldl
    (fun (pool : as3Pool) (val : Member) =>
      let member : as3PoolMember := {}
      let member := { member with AddressDiscovery := "static" }
      let member := { member with ServicePort := val.Port }
      let member := { member with ServerAddresses := member.ServerAddresses ++ [val.Address] }
      { pool with Members := pool.Members ++ [member] })
    pool

/-- Function `createPoolDecl`: stores one pool object per pool of the resource
under the pool's name. -/
def createPoolDecl (cfg : ResourceConfig) (sharedApp : as3Application) :
    as3Application :=
  cfg.Pools.foldl
    (fun (app : as3Application) (v : Pool) =>
      mapSet app v.Name (as3Value.pool (poolOf v)))
    sharedApp

/-- Function `updateVirtualToHTTPS`. -/
def updateVirtualToHTTPS (v : as3Service) : as3Service :=
  { v with Class := "Service_HTTPS", Redirect80 := some false }

/-- The service object `createServiceDecl` builds for the virtual of a
resource; `DEFAULT_PARTITION` is the package variable of that name. -/
def serviceOf (DEFAULT_PARTITION : String) (cfg : ResourceConfig) : as3Service :=
  let svc : as3Service := {}
  let numPolicies := cfg.Virtual.Policies.length
  let svc :=
    if numPolicies = 1 then
      let policyName := (cfg.Virtual.Policies.head?.getD {}).Name
      let path := sprintfPath DEFAULT_PARTITION as3SharedApplication policyName
      { svc with PolicyEndpoint := as3MultiTypeParam.str path }
    else if numPolicies > 1 then
      let peps : List as3ResourcePointer := []
      let svc := cfg.Virtual.Policies.foldl
        (fun (svc : as3Service) (pep : nameRef) =>
          let ptr : as3ResourcePointer :=
            { BigIP := sprintfPath DEFAULT_PARTITION as3SharedApplication pep.Name }
          { svc with PolicyEndpoint := as3MultiTypeParam.pointers (peps ++ [ptr]) })
        svc
      { svc with PolicyEndpoint := as3MultiTypeParam.pointers peps }
    else if numPolicies = 0 then
      -- No policies since we need to handle the pool name.
      if cfg.Virtual.PoolName ≠ "" then
        let ps := lastSegment cfg.Virtual.PoolName '/'
        { svc with Pool := sprintfPath DEFAULT_PARTITION as3SharedApplication ps }
      else svc
    else svc
  let svc := { svc with Layer4 := cfg.Virtual.IpProtocol }
  let svc := { svc with Source := "0.0.0.0/0" }
  let svc := { svc with TranslateServerAddress := true }
  let svc := { svc with TranslateServerPort := true }
  let svc := { svc with Class := "Service_HTTP" }
  let (virtualAddress, port) := extractVirtualAddressAndPort cfg.Virtual.Destination
  -- verify that ip address and port exists.
  let svc :=
    if virtualAddress ≠ "" ∧ port ≠ 0 then
      let va := svc.VirtualAddresses ++ [virtualAddress]
      { svc with VirtualAddresses := va, VirtualPort := port }
    else svc
  let svc := { svc with SNAT := "auto" }
  cfg.Virtual.IRules.foldl
    (fun (svc : as3Service) (v : String) =>
      { svc with IRules := svc.IRules ++ [lastSegment v '/'] })
    svc

/-- Function `createServiceDecl`: stores the service object under the name of
the virtual. -/
def createServiceDecl (DEFAULT_PARTITION : String) (cfg : ResourceConfig)
    (sharedApp : as3Application) : as3Application :=
  mapSet sharedApp cfg.Virtual.Name (as3Value.service (serviceOf DEFAULT_PARTITION cfg))

/-- Function `processResourcesForAS3`: policies, then pools, then the service,
for each resource in order. -/
def processResourcesForAS3 (DEFAULT_PARTITION : String) (rsCfgs : ResourceConfigs)
    (sharedApp : as3Application) : as3Application :=
  rsCfgs.foldl
    (fun (app : as3Application) (cfg : ResourceConfig) =>
      let app := createPoliciesDecl cfg app
      let app := createPoolDecl cfg app
      createServiceDecl DEFAULT_PARTITION cfg app)
    sharedApp

/-! ### The declaration document and the agent -/

/-- A value of the tenant map (`as3Tenant`, a `map[string]interface{}`). -/
inductive as3TenantValue where
  | str (s : String)
  | application (app : as3Application)
  deriving DecidableEq, Repr

/-- The type `as3Tenant`. -/
abbrev as3Tenant := List (String × as3TenantValue)

/-- A value of the `declaration` map (`as3ADC`, a `map[string]interface{}`):
a string of the base configuration, or a tenant. -/
inductive as3ADCValue where
  | str (s : String)
  | tenant (t : as3Tenant)
  deriving DecidableEq, Repr

/-- The type `as3ADC`. -/
abbrev as3ADC := List (String × as3ADCValue)

/-- A value of the top-level configuration map. -/
inductive as3ConfigValue where
  | str (s : String)
  | adc (a : as3ADC)
  deriving DecidableEq, Repr

/-- The top-level map `as3Config` that `createAS3Declaration` serialises. -/
abbrev as3Config := List (String × as3ConfigValue)

/-- The constant `baseAS3Config`, as the map `json.Unmarshal` reads from its
text. -/
def baseAS3Config : as3Config :=
  [ ("$schema", as3ConfigValue.str "https://raw.githubusercontent.com/F5Networks/f5-appsvcs-extension/master/schema/latest/as3-schema-3.11.0-3.json"),
    ("class", as3ConfigValue.str "AS3"),
    ("declaration", as3ConfigValue.adc
      [ ("class", as3ADCValue.str "ADC"),
        ("schemaVersion", as3ADCValue.str "3.11.0"),
        ("id", as3ADCValue.str "urn:uuid:B97DFADF-9F0D-4F6C-8D66-E9B52E593694"),
        ("label", as3ADCValue.str "CIS Declaration"),
        ("remark", as3ADCValue.str "Auto-generated by CIS") ]) ]

/-- The two functions of Go's `encoding/json` that the agent calls, taken as
parameters: `Marshal` of the configuration map (`none` on an error) and
`Unmarshal` of a text into a generic tree of type `τ` (`none` on an error).
`reflect.DeepEqual` of two such trees is their equality. -/
structure JSONCodec (τ : Type) where
  Marshal : as3Config → Option String
  Unmarshal : String → Option τ

/-- Function `createAS3ADC`: the shared application with its two fixed
entries and the objects of all resources, inside a tenant, under the key
`DEFAULT_PARTITION`. -/
def createAS3ADC (DEFAULT_PARTITION : String) (rsCfgs : ResourceConfigs) : as3ADC :=
  let sharedApp : as3Application := []
  let sharedApp := mapSet sharedApp "class" (as3Value.str "Application")
  let sharedApp := mapSet sharedApp "template" (as3Value.str "shared")
  let sharedApp := processResourcesForAS3 DEFAULT_PARTITION rsCfgs sharedApp
  let tenant : as3Tenant := []
  let tenant := mapSet tenant "class" (as3TenantValue.str "Tenant")
  let tenant := mapSet tenant as3SharedApplication (as3TenantValue.application sharedApp)
  mapSet [] DEFAULT_PARTITION (as3ADCValue.tenant tenant)

/-- The configuration map `createAS3Declaration` hands to `json.Marshal`: the
base configuration whose `declaration` map received every entry of
`createAS3ADC`. -/
def as3ConfigOf (DEFAULT_PARTITION : String) (rsCfgs : ResourceConfigs) : as3Config :=
  let as3Config := baseAS3Config
  match mapGet as3Config "declaration" with
  | some (as3ConfigValue.adc adc) =>
    let adc := (createAS3ADC DEFAULT_PARTITION rsCfgs).foldl
      (fun (adc : as3ADC) (kv : String × as3ADCValue) => mapSet adc kv.1 kv.2) adc
    mapSet as3Config "declaration" (as3ConfigValue.adc adc)
  | _ => as3Config

/-- Function `createAS3Declaration`: the text of the configuration map; when
`json.Marshal` fails the error is only logged and the text is empty. -/
def createAS3Declaration {τ : Type} (json : JSONCodec τ) (DEFAULT_PARTITION : String)
    (rsCfgs : ResourceConfigs) : String :=
  (json.Marshal (as3ConfigOf DEFAULT_PARTITION rsCfgs)).getD ""

/-- Function `DeepEqualJSON`: two empty texts are equal; otherwise both texts
must parse and the parsed trees must be deeply equal. -/
def DeepEqualJSON {τ : Type} [DecidableEq τ] (json : JSONCodec τ)
    (decl1 decl2 : String) : Bool :=
  if decl1 = "" ∧ decl2 = "" then true
  else
    match json.Unmarshal decl1 with
    | none => false
    | some o1 =>
      match json.Unmarshal decl2 with
      | none => false
      | some o2 => decide (o1 = o2)

/-- The state of an `Agent` that `PostConfig` reads or changes, with its two
collaborators as logs: `written` holds every payload handed to the config
writer (with the outcome the writer reported), `EventChan` is `none` for a nil
channel and otherwise the member lists a receiver took from it. -/
structure Agent where
  Partition : String := ""
  activeDecl : String := ""
  written : List (String × Bool) := []
  EventChan : Option (List (List Member)) := none
  deriving DecidableEq, Repr

/-- What the environment does during one `PostConfig`: whether the config
writer reports success for the write, and whether a receiver takes the
published members within the three seconds of the `select`. -/
structure PostEnv where
  writeOk : Bool
  received : Bool
  deriving DecidableEq, Repr

/-- Method `Agent.PostConfig`. `GetAllPoolMembers` is the method of
`ResourceConfigs` of that name, declared outside `src`. -/
def PostConfig {τ : Type} [DecidableEq τ] (json : JSONCodec τ) (DEFAULT_PARTITION : String)
    (GetAllPoolMembers : ResourceConfigs → List Member) (env : PostEnv)
    (agent : Agent) (rsCfgs : ResourceConfigs) : Agent :=
  let decl := createAS3Declaration json DEFAULT_PARTITION rsCfgs
  if DeepEqualJSON json agent.activeDecl decl then
    agent
  else
    let agent := { agent with written := agent.written ++ [(decl, env.writeOk)] }
    let agent := { agent with activeDecl := decl }
    let allPoolMembers := GetAllPoolMembers rsCfgs
    let allPoolMems := allPoolMembers.foldl
      (fun (acc : List Member) (poolMem : Member) => acc ++ [poolMem]) []
    match agent.EventChan with
    | some taken =>
      if env.received then { agent with EventChan := some (taken ++ [allPoolMems]) }
      else agent
    | none => agent

/-- The agent `NewAgent` creates, as far as `PostConfig` is concerned: the
partition of the parameters, an empty active declaration, a fresh channel. -/
def NewAgent (Partition : String) : Agent :=
  { Partition := Partition, activeDecl := "", written := [], EventChan := some [] }

/-! ## node_poll_handler.go -/

/-- The Kubernetes type `v1.NodeAddress`. -/
structure v1.NodeAddress where
  Typ : String := ""
  Address : String := ""
  deriving DecidableEq, Repr

/-- The Kubernetes constant `v1.NodeInternalIP`. -/
def v1.NodeInternalIP : String := "InternalIP"

/-- The Kubernetes constant `v1.NodeExternalIP`. -/
def v1.NodeExternalIP : String := "ExternalIP"

/-- The Kubernetes type `metav1.ObjectMeta`, with the fields the package
reads. -/
structure ObjectMeta where
  Name : String := ""
  Namespace : String := ""
  Labels : List (String × String) := []
  deriving DecidableEq, Repr

/-- The Kubernetes type `v1.NodeStatus`, with the field the package reads. -/
structure v1.NodeStatus where
  Addresses : List v1.NodeAddress := []
  deriving DecidableEq, Repr

/-- The Kubernetes type `v1.Node`, with the fields the package reads. -/
structure v1.Node where
  ObjectMeta : ObjectMeta := {}
  Status : v1.NodeStatus := {}
  deriving DecidableEq, Repr

/-- The custom resource type `cisapiv1.VirtualServer`, with the fields the
package reads. -/
structure cisapiv1.VirtualServer where
  ObjectMeta : ObjectMeta := {}
  deriving DecidableEq, Repr

/-- The type `Node`: one record of the node cache. `Labels` is a map that
`getNodes` always makes, so it is never nil. -/
structure Node where
  Name : String := ""
  Addr : String := ""
  Labels : List (String × String) := []
  deriving DecidableEq, Repr

/-- The payload of a poll (`obj interface{}`): a node list, or a value of
any other type. -/
inductive PollObject where
  | nodes (l : List v1.Node)
  | other
  deriving DecidableEq, Repr

/-- Modelled from the spec: type `rqKey` (declared outside `src`), the key of
a resync request; the code fills its five fields by position. -/
structure rqKey where
  namespace_ : String
  kind : String
  rscName : String
  rsc : cisapiv1.VirtualServer
  rscDelete : Bool
  deriving DecidableEq, Repr

/-- Modelled from the spec: the constant `VirtualServer` (declared outside
`src`) that tags a resync key as one for a virtual server. -/
def VirtualServer : String := "VirtualServer"

/-- Modelled from the spec: what the informers of the manager answer, for the
three helpers declared outside `src`: `watchingAllNamespaces()`, the list of
the indexer of the informer of namespace "" and `getAllVirtualServers(ns)`. -/
structure Informers where
  watchingAllNamespaces : Bool
  allVirtuals : List cisapiv1.VirtualServer
  getAllVirtualServers : String → List cisapiv1.VirtualServer

/-- The state of a `CRManager` that the node poll handler reads or changes.
`oldNodes` is `none` while it is the nil slice; `rscQueue` lists the keys
added to the resource queue, oldest first. -/
structure CRManager where
  initState : Bool := true
  oldNodes : Option (List Node) := none
  ControllerMode : String := ""
  UseNodeInternal : Bool := false
  namespaces : List String := []
  rscQueue : List rqKey := []
  deriving DecidableEq, Repr

/-- The copy loop of `getNodes`: `for k, v := range labels { n.Labels[k] = v }`
into a map made empty. -/
def copyLabels (labels : List (String × String)) : List (String × String) :=
  labels.foldl (fun (m : List (String × String)) (kv : String × String) => mapSet m kv.1 kv.2) []

/-- The inner loop of `getNodes` for one node: one record for every address
of the node whose type is `addrType`, appended to `watchedNodes`. -/
def appendNodeRecords (addrType : String) (watchedNodes : List Node) (node : v1.Node) :
    List Node :=
  node.Status.Addresses.foldl
    (fun (watched : List Node) (addr : v1.NodeAddress) =>
      if addr.Typ = addrType then
        let n : Node :=
          { Name := node.ObjectMeta.Name, Addr := addr.Address, Labels := [] }
        let n := { n with Labels := copyLabels node.ObjectMeta.Labels }
        watched ++ [n]
      else watched)
    watchedNodes

/-- Method `CRManager.getNodes`: an error when the payload is not a node list,
else the records of all nodes, in order (a slice that is never nil). -/
def getNodes (crMgr : CRManager) (obj : PollObject) : Except String (List Node) :=
  match obj with
  | PollObject.other =>
    Except.error "poll update unexpected type, interface is not []v1.Node"
  | PollObject.nodes nodes =>
    let watchedNodes : List Node := []
    let addrType :=
      if crMgr.UseNodeInternal then v1.NodeInternalIP else v1.NodeExternalIP
    Except.ok (nodes.foldl (appendNodeRecords addrType) watchedNodes)

/-- Go `reflect.DeepEqual` on two `map[string]string` that are not nil: the
same number of keys, and every key of the first has the same value in the
second. -/
def labelsDeepEqual (m1 m2 : List (String × String)) : Bool :=
  m1.length == m2.length && m1.all (fun kv => mapGet m2 kv.1 == some kv.2)

/-- Go `reflect.DeepEqual` on two `Node` values: field by field. -/
def nodeDeepEqual (a b : Node) : Bool :=
  a.Name == b.Name && a.Addr == b.Addr && labelsDeepEqual a.Labels b.Labels

/-- Go `reflect.DeepEqual` on two lists of nodes of which the lengths were
compared before: element by element. -/
def nodeListDeepEqual : List Node → List Node → Bool
  | [], [] => true
  | a :: as, b :: bs => nodeDeepEqual a b && nodeListDeepEqual as bs
  | _, _ => false

/-- Go `reflect.DeepEqual` on two `[]Node`: a nil slice equals only a nil
slice; two slices that are not nil are equal when they have the same length
and deeply equal elements at every position. -/
def nodesDeepEqual : Option (List Node) → Option (List Node) → Bool
  | none, none => true
  | some a, some b => a.length == b.length && nodeListDeepEqual a b
  | _, _ => false

/-- The resync keys of the branch of `ProcessNodeUpdate` for a manager that
watches all namespaces: one key per virtual server the indexer lists. -/
def enqueueAllVirtuals (virtuals : List cisapiv1.VirtualServer) (queue : List rqKey) :
    List rqKey :=
  if virtuals.length ≠ 0 then
    virtuals.foldl
      (fun (q : List rqKey) (vs : cisapiv1.VirtualServer) =>
        q ++ [{ namespace_ := vs.ObjectMeta.Namespace, kind := VirtualServer,
                rscName := vs.ObjectMeta.Name, rsc := vs, rscDelete := false }])
      queue
  else queue

/-- The resync keys of the branch of `ProcessNodeUpdate` for a manager that
watches a list of namespaces: one key per virtual server of each namespace. -/
def enqueueNamespaces (inf : Informers) (namespaces : List String) (queue : List rqKey) :
    List rqKey :=
  namespaces.foldl
    (fun (q : List rqKey) (ns : String) =>
      (inf.getAllVirtualServers ns).foldl
        (fun (q : List rqKey) (virtual : cisapiv1.VirtualServer) =>
          q ++ [{ namespace_ := ns, kind := VirtualServer,
                  rscName := virtual.ObjectMeta.Name, rsc := virtual, rscDelete := false }])
        q)
    queue

/-- Method `CRManager.ProcessNodeUpdate`. `NodePortMode` is the constant of
that name, declared outside `src`; `err` is `none` for a nil error. -/
def ProcessNodeUpdate (NodePortMode : String) (inf : Informers) (crMgr : CRManager)
    (obj : PollObject) (err : Option String) : CRManager :=
  match err with
  | some _ => crMgr
  | none =>
    match getNodes crMgr obj with
    | Except.error _ => crMgr
    | Except.ok newNodes =>
      -- Only check for updates once we are out of initial state
      if ¬ crMgr.initState then
        -- Compare last set of nodes with new one
        if ¬ nodesDeepEqual (some newNodes) crMgr.oldNodes then
          let crMgr :=
            if crMgr.ControllerMode = NodePortMode then
              if inf.watchingAllNamespaces then
                { crMgr with rscQueue := enqueueAllVirtuals inf.allVirtuals crMgr.rscQueue }
              else
                { crMgr with rscQueue := enqueueNamespaces inf crMgr.namespaces crMgr.rscQueue }
            else crMgr
          -- Update node cache
          { crMgr with oldNodes := some newNodes }
        else crMgr
      else
        -- Initialize crMgr nodes on our first pass through
        { crMgr with oldNodes := some newNodes }

/-- Method `CRManager.getNodesFromCache`: a copy of the node cache, of the
length of the cache. -/
def getNodesFromCache (crMgr : CRManager) : List Node :=
  match crMgr.oldNodes with
  | none => []
  | some nodes => nodes

/-- Method `CRManager.getNodesWithLabel`: the cached nodes whose label map,
read at the key of the selector, gives the value of the selector; nothing
when the selector does not split on '=' into two parts. A read of a Go map at
an absent key gives the empty string. -/
def getNodesWithLabel (crMgr : CRManager) (nodeMemberLabel : String) : List Node :=
  let allNodes := getNodesFromCache crMgr
  let label := Split nodeMemberLabel '='
  match label with
  | [labelKey, labelValue] =>
    allNodes.foldl
      (fun (nodes : List Node) (node : Node) =>
        if (mapGet node.Labels labelKey).getD "" = labelValue then nodes ++ [node]
        else nodes)
      []
  | _ => []

/-! ## Example inputs -/

/-- A resource whose virtual names two policies. -/
def twoPolicyConfig : ResourceConfig :=
  { Virtual := { Name := "vs", Destination := "/k8s/10.0.0.1:80",
                 Policies := [{ Name := "policyA" }, { Name := "policyB" }] } }

/-- A host condition with an equals flag and one value. -/
def exampleHostCondition : Condition :=
  { Host := true, Equals := true, Values := ["example.com"] }

/-- A rule with one host condition and a forward action to `pool1`. -/
def exampleRule : Rule :=
  { Name := "rule1", Conditions := [exampleHostCondition],
    Actions := [{ Forward := true, Pool := "pool1" }] }

/-- The resource of the end-to-end example: destination `10.0.0.1:8080`, one
policy with the example rule. -/
def exampleConfig : ResourceConfig :=
  { Virtual := { Name := "vs", Destination := "10.0.0.1:8080",
                 Policies := [{ Name := "policy1" }] },
    Policies := [{ Name := "policy1", Strategy := "/Common/first-match",
                   Rules := [exampleRule] }] }

/-- A cached node without any label. -/
def unlabelledNode : Node := { Name := "n1", Addr := "10.0.0.1", Labels := [] }

/-- A cached node with the label `env=prod`. -/
def prodNode : Node := { Name := "n2", Addr := "10.0.0.2", Labels := [("env", "prod")] }

/-- A manager whose cache holds the two example nodes. -/
def twoNodeManager : CRManager :=
  { initState := false, oldNodes := some [unlabelledNode, prodNode] }

/-- A raw node with two addresses of the internal family (dual stack) and one
label. -/
def dualStackNode : v1.Node :=
  { ObjectMeta := { Name := "n1", Labels := [("env", "prod")] },
    Status := { Addresses := [{ Typ := "InternalIP", Address := "10.0.0.1" },
                              { Typ := "InternalIP", Address := "fd00::1" },
                              { Typ := "Hostname", Address := "n1" }] } }

/-- A raw node without any address of the internal family. -/
def externalOnlyNode : v1.Node :=
  { ObjectMeta := { Name := "n2" },
    Status := { Addresses := [{ Typ := "ExternalIP", Address := "192.0.2.7" }] } }

/-- The records of the claim about `getNodes`, in the words of the claim as
amended: for each node in order, one record per address of the preferred
family `addrType`, in address order, with the name and the labels of the node. -/
def recordsPerAddress (addrType : String) (nodes : List v1.Node) : List Node :=
  (nodes.map (fun node =>
    (node.Status.Addresses.filter (fun addr => decide (addr.Typ = addrType))).map
      (fun addr =>
        ({ Name := node.ObjectMeta.Name, Addr := addr.Address,
           Labels := node.ObjectMeta.Labels } : Node)))).flatten

/-- An example codec for the witnesses: the text of a configuration lists
the keys of its declaration after the word `declaration`, and every text but
the empty one parses, to itself. -/
def exampleCodec : JSONCodec String :=
  { Marshal := fun cfg =>
      match mapGet cfg "declaration" with
      | some (as3ConfigValue.adc adc) => some ("declaration:" ++ String.intercalate "," (mapKeys adc))
      | _ => some "declaration:",
    Unmarshal := fun s => if s = "" then none else some s }

/-- An example of `GetAllPoolMembers`: the members of all pools of all
resources, in order. -/
def exampleGetAllPoolMembers (rsCfgs : ResourceConfigs) : List Member :=
  (rsCfgs.map (fun cfg => (cfg.Pools.map (fun p => p.Members)).flatten)).flatten

/-- An example of the informers: all namespaces watched, one virtual server
`default/vs1` known. -/
def exampleInformers : Informers :=
  { watchingAllNamespaces := true,
    allVirtuals := [{ ObjectMeta := { Name := "vs1", Namespace := "default" } }],
    getAllVirtualServers := fun _ => [] }

/-- Two node records are the same record: the same name, the same address
and the same value (or none) for every label key. -/
def sameRecord (a b : Node) : Prop :=
  a.Name = b.Name ∧ a.Addr = b.Addr ∧ ∀ k, mapGet a.Labels k = mapGet b.Labels k

/-- Two node lists are equal as ordered lists: the same number of records and
the same record at every position. -/
def sameOrderedList (newNodes oldNodes : List Node) : Prop :=
  List.Forall₂ sameRecord newNodes oldNodes

/-- The resync keys of the claim about node changes: one key per currently
known virtual server, from the informer of all namespaces when all are
watched, else from each watched namespace in turn. -/
def resyncKeys (inf : Informers) (namespaces : List String) : List rqKey :=
  if inf.watchingAllNamespaces then
    inf.allVirtuals.map
      (fun vs => ({ namespace_ := vs.ObjectMeta.Namespace, kind := VirtualServer,
                    rscName := vs.ObjectMeta.Name, rsc := vs, rscDelete := false } : rqKey))
  else
    (namespaces.map (fun ns =>
      (inf.getAllVirtualServers ns).map
        (fun vs => ({ namespace_ := ns, kind := VirtualServer,
                      rscName := vs.ObjectMeta.Name, rsc := vs, rscDelete := false } : rqKey)))).flatten

/-- A manager past its initial state, in node-port mode, whose node cache was
never filled (the nil slice). -/
def unfilledManager : CRManager :=
  { initState := false, ControllerMode := "nodeport", UseNodeInternal := true,
    oldNodes := none }

/-- A raw node with one internal address. -/
def rawNodeA : v1.Node :=
  { ObjectMeta := { Name := "a" },
    Status := { Addresses := [{ Typ := "InternalIP", Address := "10.0.0.1" }] } }

/-- Another raw node with one internal address. -/
def rawNodeB : v1.Node :=
  { ObjectMeta := { Name := "b" },
    Status := { Addresses := [{ Typ := "InternalIP", Address := "10.0.0.2" }] } }

/-- A manager past its initial state, in node-port mode, whose cache holds
the records of `rawNodeA` and `rawNodeB` in this order. -/
def steadyManager : CRManager :=
  { initState := false, ControllerMode := "nodeport", UseNodeInternal := true,
    oldNodes := some [{ Name := "a", Addr := "10.0.0.1", Labels := [] },
                      { Name := "b", Addr := "10.0.0.2", Labels := [] }] }

/-- A manager whose cache holds the node with the label `env=prod`. -/
def prodManager : CRManager :=
  { initState := false, oldNodes := some [prodNode] }

/-- An action that rewrites the host header: replace and header flags. -/
def hostRewriteAction : Action :=
  { HTTPHost := true, Replace := true, Value := "new.example.com" }

/-- An action with the replace, header and URI flags all set. -/
def bothRewriteAction : Action :=
  { HTTPHost := true, HTTPURI := true, Replace := true, Value := "/new" }

/-- A rule with the two rewrite actions and a plain forward action. -/
def rewriteRule : Rule :=
  { Name := "rewrite",
    Actions := [hostRewriteAction, bothRewriteAction, { Forward := true, Pool := "/k8s/pool1" }] }

/-- A path condition (neither host nor path segment) with index 3. -/
def pathConditionWithIndex : Condition :=
  { Path := true, Index := 3, Values := ["/app"] }

/-- A path-segment condition with index 2. -/
def segmentConditionWithIndex : Condition :=
  { PathSegment := true, Index := 2, Values := ["app"] }

/-- A host condition with index 5. -/
def hostConditionWithIndex : Condition :=
  { Host := true, Index := 5, Values := ["example.com"] }

/-- A rule with a host, a path-segment and a path condition, each with an
index. -/
def indexedRule : Rule :=
  { Name := "indexed",
    Conditions := [hostConditionWithIndex, segmentConditionWithIndex, pathConditionWithIndex] }

/-- A policy without any rule. -/
def emptyPolicy : Policy :=
  { Name := "policy0", Strategy := "/Common/first-match", Rules := [] }

/-- A resource whose only policy has no rule. -/
def emptyPolicyConfig : ResourceConfig :=
  { Virtual := { Name := "vs", Destination := "10.0.0.1:80", Policies := [{ Name := "policy0" }] },
    Policies := [emptyPolicy] }

/-- A pool with two members. -/
def examplePool : Pool :=
  { Name := "pool1",
    Members := [{ Address := "10.1.0.1", Port := 8080 }, { Address := "10.1.0.2", Port := 8081 }] }

/-- A resource with the example pool, whose virtual has the name of the pool
and a destination without a port. -/
def poolNamedVirtualConfig : ResourceConfig :=
  { Virtual := { Name := "pool1", Destination := "/k8s/10.0.0.1", PoolName := "/k8s/pool1" },
    Pools := [examplePool] }

/-- The objects `createPoliciesDecl` writes for a resource, in write order:
one per policy, under the name of the policy. -/
def emittedPolicies (cfg : ResourceConfig) : List (String × as3Value) :=
  cfg.Policies.map (fun pl =>
    (pl.Name, as3Value.policy
      (endpointPolicyOf pl (extractVirtualAddressAndPort cfg.Virtual.Destination).2)))

/-- The objects `createPoolDecl` writes for a resource, in write order: one
per pool, under the name of the pool. -/
def emittedPools (cfg : ResourceConfig) : List (String × as3Value) :=
  cfg.Pools.map (fun v => (v.Name, as3Value.pool (poolOf v)))

/-- The objects written for one resource, in the write order of the claim:
its policies, then its pools, then its service. -/
def emittedObjects (DEFAULT_PARTITION : String) (cfg : ResourceConfig) :
    List (String × as3Value) :=
  emittedPolicies cfg ++ emittedPools cfg ++
    [(cfg.Virtual.Name, as3Value.service (serviceOf DEFAULT_PARTITION cfg))]

/-- The objects written for a list of resources, in the write order of the
claim: resources in input order. -/
def allEmittedObjects (DEFAULT_PARTITION : String) (rsCfgs : ResourceConfigs) :
    List (String × as3Value) :=
  (rsCfgs.map (emittedObjects DEFAULT_PARTITION)).flatten

/-- The names under which objects are written for a list of resources: for
each resource the names of its policies, of its pools and of its virtual. -/
def emittedNames (rsCfgs : ResourceConfigs) : List String :=
  (rsCfgs.map (fun cfg =>
    cfg.Policies.map (fun pl => pl.Name) ++ cfg.Pools.map (fun v => v.Name) ++
      [cfg.Virtual.Name])).flatten

/-- A resource whose virtual is named `class`. -/
def classNamedVirtualConfig : ResourceConfig :=
  { Virtual := { Name := "class", Destination := "10.0.0.1:80" } }

/-- A second resource, with a pool that has the name of the pool of
`poolNamedVirtualConfig`. -/
def laterPoolConfig : ResourceConfig :=
  { Virtual := { Name := "vs2", Destination := "10.0.0.2:80" },
    Pools := [{ Name := "pool1", Members := [{ Address := "10.2.0.1", Port := 9090 }] }] }

/-! ## Auxiliary lemmas -/

theorem foldl_append_singleton {α β : Type} (f : α → β) (xs : List α) (init : List β) :
    xs.foldl (fun (acc : List β) (x : α) => acc ++ [f x]) init = init ++ xs.map f := by
  induction xs generalizing init with
  | nil => simp
  | cons x xs ih => simp [ih]

theorem foldl_append_if {α β : Type} (p : α → Prop) [DecidablePred p] (f : α → β)
    (xs : List α) (init : List β) :
    xs.foldl (fun (acc : List β) (x : α) => if p x then acc ++ [f x] else acc) init
      = init ++ (xs.filter (fun x => decide (p x))).map f := by
  induction xs generalizing init with
  | nil => simp
  | cons x xs ih =>
    by_cases h : p x <;> simp [ih, h]

theorem mapGet_mapSet_self {α : Type} (m : List (String × α)) (k : String) (v : α) :
    mapGet (mapSet m k v) k = some v := by
  induction m with
  | nil => simp [mapSet, mapGet]
  | cons kv rest ih =>
    obtain ⟨k', v'⟩ := kv
    by_cases h : k' = k <;> simp [mapSet, mapGet, h, ih]

theorem mapGet_mapSet_other {α : Type} (m : List (String × α)) (k j : String) (v : α)
    (h : k ≠ j) : mapGet (mapSet m k v) j = mapGet m j := by
  induction m with
  | nil => simp [mapSet, mapGet, h]
  | cons kv rest ih =>
    obtain ⟨k', v'⟩ := kv
    by_cases h1 : k' = k
    · subst h1
      simp [mapSet, mapGet, h]
    · by_cases h2 : k' = j
      · subst h2
        simp [mapSet, mapGet, h1]
      · simp [mapSet, mapGet, h1, h2, ih]

/-! ### Splitting -/

theorem splitChars_ne_nil (sep : Char) (l : List Char) : splitChars sep l ≠ [] := by
  cases l with
  | nil => simp [splitChars]
  | cons c cs =>
    unfold splitChars
    split
    · simp
    · split <;> simp

theorem splitChars_of_not_mem (sep : Char) (l : List Char) (h : sep ∉ l) :
    splitChars sep l = [l] := by
  induction l with
  | nil => simp [splitChars]
  | cons c cs ih =>
    have hc : c ≠ sep := fun e => h (by simp [e])
    have hcs : sep ∉ cs := fun e => h (by simp [e])
    simp [splitChars, hc, ih hcs]

theorem splitChars_append_sep (sep : Char) (a b : List Char) (h : sep ∉ a) :
    splitChars sep (a ++ sep :: b) = a :: splitChars sep b := by
  induction a with
  | nil => simp [splitChars]
  | cons c cs ih =>
    have hc : c ≠ sep := fun e => h (by simp [e])
    have hcs : sep ∉ cs := fun e => h (by simp [e])
    simp [splitChars, hc, ih hcs]

theorem splitChars_length (sep : Char) (l : List Char) :
    (splitChars sep l).length = l.count sep + 1 := by
  induction l with
  | nil => simp [splitChars]
  | cons c cs ih =>
    unfold splitChars
    by_cases hc : c = sep
    · subst hc
      simp [ih]
    · have hne : splitChars sep cs ≠ [] := splitChars_ne_nil sep cs
      cases hs : splitChars sep cs with
      | nil => exact absurd hs hne
      | cons p ps =>
        rw [hs] at ih
        simp [hc, List.count_cons, ih] 
        simp at ih
        omega

theorem splitChars_pieces_no_sep (sep : Char) (l : List Char) :
    ∀ p ∈ splitChars sep l, sep ∉ p := by
  induction l with
  | nil => simp [splitChars]
  | cons c cs ih =>
    unfold splitChars
    by_cases hc : c = sep
    · subst hc
      intro p hp
      simp at hp
      rcases hp with rfl | hp
      · simp
      · exact ih p hp
    · cases hs : splitChars sep cs with
      | nil => exact absurd hs (splitChars_ne_nil sep cs)
      | cons q qs =>
        rw [hs] at ih
        intro p hp
        simp [hc] at hp
        rcases hp with rfl | hp
        · have hq := ih q (by simp)
          simp
          exact ⟨fun e => hc e.symm, hq⟩
        · exact ih p (by simp [hp])

/-! ### Decimal numbers -/

theorem parseUintLoop_snoc (l : List Char) (c : Char) (acc m : Nat)
    (h : parseUintLoop l acc = some m) (hm : m < maxUint64 / 10 + 1) (hc : c.isDigit = true)
    (hle : m * 10 + (c.toNat - 48) ≤ maxUint64) :
    parseUintLoop (l ++ [c]) acc = some (m * 10 + (c.toNat - 48)) := by
  induction l generalizing acc with
  | nil =>
    simp only [parseUintLoop] at h
    cases h
    simp only [List.nil_append, parseUintLoop, hc, if_true]
    rw [if_neg (by omega), if_neg (by omega)]
  | cons x xs ih =>
    simp only [List.cons_append, parseUintLoop] at h ⊢
    by_cases hx : x.isDigit = true
    · rw [if_pos hx] at h ⊢
      by_cases h1 : acc ≥ maxUint64 / 10 + 1
      · rw [if_pos h1] at h
        cases h
        simp [maxUint64] at hm
      · rw [if_neg h1] at h ⊢
        by_cases h2 : acc * 10 + (x.toNat - 48) > maxUint64
        · rw [if_pos h2] at h
          cases h
          simp [maxUint64] at hm
        · rw [if_neg h2] at h ⊢
          exact ih _ h
    · rw [if_neg hx] at h
      cases h

theorem parseUintLoop_all_digits (l : List Char) (acc m : Nat)
    (h : parseUintLoop l acc = some m) (hm : m < maxUint64) : ∀ c ∈ l, c.isDigit = true := by
  induction l generalizing acc with
  | nil => simp
  | cons x xs ih =>
    simp only [parseUintLoop] at h
    by_cases hx : x.isDigit = true
    · rw [if_pos hx] at h
      by_cases h1 : acc ≥ maxUint64 / 10 + 1
      · rw [if_pos h1] at h
        cases h
        omega
      · rw [if_neg h1] at h
        by_cases h2 : acc * 10 + (x.toNat - 48) > maxUint64
        · rw [if_pos h2] at h
          cases h
          omega
        · rw [if_neg h2] at h
          intro c hcm
          simp at hcm
          rcases hcm with rfl | hcm
          · exact hx
          · exact ih _ h c hcm
    · rw [if_neg hx] at h
      cases h

theorem toDigitsCore_append (fuel n : Nat) (ds : List Char) :
    Nat.toDigitsCore 10 fuel n ds = Nat.toDigitsCore 10 fuel n [] ++ ds := by
  induction fuel generalizing n ds with
  | zero => simp [Nat.toDigitsCore]
  | succ f ih =>
    simp only [Nat.toDigitsCore]
    by_cases h : n / 10 = 0
    · simp [h]
    · rw [if_neg h, if_neg h, ih (n / 10) (Nat.digitChar (n % 10) :: ds),
        ih (n / 10) [Nat.digitChar (n % 10)]]
      simp

theorem digitChar_isDigit (d : Nat) (h : d < 10) :
    (Nat.digitChar d).isDigit = true ∧ (Nat.digitChar d).toNat - 48 = d := by
  interval_cases d <;> decide

theorem parseUintLoop_toDigitsCore (n : Nat) :
    ∀ fuel, n < fuel → n ≤ maxUint64 →
      parseUintLoop (Nat.toDigitsCore 10 fuel n []) 0 = some n := by
  induction n using Nat.strong_induction_on with
  | _ n ih =>
    intro fuel hf hn
    cases fuel with
    | zero => omega
    | succ f =>
      simp only [Nat.toDigitsCore]
      have hd := digitChar_isDigit (n % 10) (Nat.mod_lt _ (by decide))
      by_cases h : n / 10 = 0
      · rw [if_pos h]
        have hn10 : n % 10 = n := by omega
        simp only [parseUintLoop, hd.1, if_true, hd.2]
        rw [if_neg (by simp [maxUint64]), if_neg (by simp [maxUint64]; omega)]
        simp [hn10]
      · rw [if_neg h, toDigitsCore_append]
        have hlt : n / 10 < n := by omega
        have h1 := ih (n / 10) hlt f (by omega) (by omega)
        have h2 := parseUintLoop_snoc _ (Nat.digitChar (n % 10)) 0 (n / 10) h1
          (by simp [maxUint64] at hn ⊢; omega) hd.1 (by rw [hd.2]; omega)
        rw [h2, hd.2]
        congr 1
        omega

theorem toDigits_parse (n : Nat) (h : n ≤ maxUint64) :
    parseUintLoop (Nat.toDigits 10 n) 0 = some n :=
  parseUintLoop_toDigitsCore n (n + 1) (Nat.lt_succ_self n) h

theorem toDigits_cons (n : Nat) (h : n < maxUint64) :
    ∃ c cs, Nat.toDigits 10 n = c :: cs ∧ (∀ x ∈ c :: cs, x.isDigit = true) := by
  have hp := toDigits_parse n (Nat.le_of_lt h)
  have hall := parseUintLoop_all_digits _ 0 n hp h
  cases hl : Nat.toDigits 10 n with
  | nil =>
    rw [hl] at hp
    simp only [parseUintLoop] at hp
    have h0 : n = 0 := by
      cases hp
      rfl
    subst h0
    simp [Nat.toDigits, Nat.toDigitsCore] at hl
  | cons c cs =>
    rw [hl] at hall
    exact ⟨c, cs, rfl, hall⟩

theorem Atoi_of_digits (s : String) (n : Nat) (c : Char) (cs : List Char)
    (hs : s.data = c :: cs) (hc : c.isDigit = true)
    (hp : parseUintLoop (c :: cs) 0 = some n) (hn : n < 2 ^ 63) : Atoi s = (n : Int) := by
  have h1 : c ≠ '+' := by
    intro e
    subst e
    simp [Char.isDigit] at hc
  have h2 : c ≠ '-' := by
    intro e
    subst e
    simp [Char.isDigit] at hc
  unfold Atoi
  simp only [hs, h1, h2, or_self, if_false, hp]
  rw [if_neg (by omega)]

theorem Atoi_Itoa_natCast (n : Nat) (hn : n < 2 ^ 63) : Atoi (Itoa (n : Int)) = (n : Int) := by
  have hmax : n < maxUint64 := by
    simp only [maxUint64]
    omega
  obtain ⟨c, cs, hl, hall⟩ := toDigits_cons n hmax
  have hp := toDigits_parse n (Nat.le_of_lt hmax)
  rw [hl] at hp
  have hdata : (Itoa (n : Int)).data = c :: cs := by
    show (Nat.repr n).data = c :: cs
    simp [Nat.repr, List.asString, hl]
  exact Atoi_of_digits _ n c cs hdata (hall c (by simp)) hp hn

theorem Itoa_natCast_digits (n : Nat) (hn : n < 2 ^ 63) :
    ∀ x ∈ (Itoa (n : Int)).data, x.isDigit = true := by
  have hmax : n < maxUint64 := by
    simp only [maxUint64]
    omega
  obtain ⟨c, cs, hl, hall⟩ := toDigits_cons n hmax
  have hdata : (Itoa (n : Int)).data = c :: cs := by
    show (Nat.repr n).data = c :: cs
    simp [Nat.repr, List.asString, hl]
  rw [hdata]
  exact hall

/-! ### `Split` and `lastSegment` on strings -/

theorem Split_of_data (s a b : String) (sep : Char)
    (hs : s.data = a.data ++ sep :: b.data) (ha : sep ∉ a.data) (hb : sep ∉ b.data) :
    Split s sep = [a, b] := by
  simp [Split, hs, splitChars_append_sep sep _ _ ha, splitChars_of_not_mem sep _ hb]

theorem Split_length (s : String) (sep : Char) :
    (Split s sep).length = s.data.count sep + 1 := by
  simp [Split, splitChars_length]

theorem lastSegment_no_sep (s : String) (sep : Char) : sep ∉ (lastSegment s sep).data := by
  unfold lastSegment Split
  cases h : (splitChars sep s.data).getLast? with
  | none =>
    simp [List.getLast?_eq_none_iff] at h
    exact absurd h (splitChars_ne_nil sep _)
  | some p =>
    have hmem : p ∈ splitChars sep s.data := List.mem_of_getLast?_eq_some h
    simp [List.getLast?_map, h]
    exact splitChars_pieces_no_sep sep _ p hmem

theorem lastSegment_of_no_sep (s : String) (sep : Char) (h : sep ∉ s.data) :
    lastSegment s sep = s := by
  simp [lastSegment, Split, splitChars_of_not_mem sep _ h]

theorem lastSegment_idem (s : String) (sep : Char) :
    lastSegment (lastSegment s sep) sep = lastSegment s sep :=
  lastSegment_of_no_sep _ sep (lastSegment_no_sep s sep)

theorem splitChars_append (sep : Char) (l r : List Char) :
    splitChars sep (l ++ sep :: r) = splitChars sep l ++ splitChars sep r := by
  induction l with
  | nil => simp [splitChars]
  | cons c cs ih =>
    have hstep : ∀ t : List Char, splitChars sep (c :: t) =
        if c = sep then [] :: splitChars sep t
        else match splitChars sep t with
          | [] => [[c]]
          | p :: ps => (c :: p) :: ps := fun t => by rw [splitChars]
    rw [List.cons_append, hstep, hstep, ih]
    by_cases hc : c = sep
    · rw [if_pos hc, if_pos hc]
      rfl
    · rw [if_neg hc, if_neg hc]
      cases hs : splitChars sep cs with
      | nil => exact absurd hs (splitChars_ne_nil sep cs)
      | cons p ps => rfl

theorem lastSegment_append_sep (s pre seg : String) (sep : Char)
    (hs : s.data = pre.data ++ sep :: seg.data) (h : sep ∉ seg.data) :
    lastSegment s sep = seg := by
  simp [lastSegment, Split, hs, splitChars_append, splitChars_of_not_mem sep _ h]

/-! ## Services: the policy binding (C1) -/

theorem foldl_IRules_frame (irules : List String) (svc : as3Service) :
    let out := irules.foldl
      (fun (svc : as3Service) (v : String) =>
        { svc with IRules := svc.IRules ++ [lastSegment v '/'] }) svc
    out.PolicyEndpoint = svc.PolicyEndpoint ∧ out.Pool = svc.Pool := by
  induction irules generalizing svc with
  | nil => simp
  | cons v vs ih =>
    have h := ih { svc with IRules := svc.IRules ++ [lastSegment v '/'] }
    simpa using h

theorem foldl_service_Pool {α : Type} (g : as3Service → α → as3Service)
    (hg : ∀ s a, (g s a).Pool = s.Pool) (xs : List α) (s : as3Service) :
    (xs.foldl g s).Pool = s.Pool := by
  induction xs generalizing s with
  | nil => rfl
  | cons x xs ih => simp [ih, hg]

theorem serviceOf_policyEndpoint_pool (DEFAULT_PARTITION : String) (cfg : ResourceConfig) :
    ((serviceOf DEFAULT_PARTITION cfg).PolicyEndpoint =
      if cfg.Virtual.Policies.length = 1 then
        as3MultiTypeParam.str (sprintfPath DEFAULT_PARTITION as3SharedApplication
          (cfg.Virtual.Policies.head?.getD {}).Name)
      else if cfg.Virtual.Policies.length > 1 then as3MultiTypeParam.pointers []
      else as3MultiTypeParam.unset) ∧
    ((serviceOf DEFAULT_PARTITION cfg).Pool =
      if cfg.Virtual.Policies.length = 0 ∧ cfg.Virtual.PoolName ≠ "" then
        sprintfPath DEFAULT_PARTITION as3SharedApplication (lastSegment cfg.Virtual.PoolName '/')
      else "") := by
  unfold serviceOf
  refine ⟨(foldl_IRules_frame cfg.Virtual.IRules _).1.trans ?_,
    (foldl_IRules_frame cfg.Virtual.IRules _).2.trans ?_⟩
  · by_cases h1 : cfg.Virtual.Policies.length = 1
    · simp [h1]
      split <;> simp
    · by_cases h2 : cfg.Virtual.Policies.length > 1
      · simp [h1, h2]
        split <;> simp
      · have h0 : cfg.Virtual.Policies.length = 0 := by omega
        simp [h0]
        split <;> split <;> simp
  · by_cases h1 : cfg.Virtual.Policies.length = 1
    · simp [h1]
      split <;> simp
    · by_cases h2 : cfg.Virtual.Policies.length > 1
      · have h0 : cfg.Virtual.Policies.length ≠ 0 := by omega
        simp [h1, h2, h0]
        split <;> simp [foldl_service_Pool]
      · have h0 : cfg.Virtual.Policies.length = 0 := by omega
        simp [h0]
        split <;> split <;> simp_all

theorem serviceOf_no_policy_binds_pool (DEFAULT_PARTITION : String) (cfg : ResourceConfig)
    (h0 : cfg.Virtual.Policies.length = 0) (hp : cfg.Virtual.PoolName ≠ "") :
    (serviceOf DEFAULT_PARTITION cfg).Pool =
        "/" ++ DEFAULT_PARTITION ++ "/Shared/" ++ lastSegment cfg.Virtual.PoolName '/' ∧
      (serviceOf DEFAULT_PARTITION cfg).PolicyEndpoint = as3MultiTypeParam.unset := by
  obtain ⟨h1, h2⟩ := serviceOf_policyEndpoint_pool DEFAULT_PARTITION cfg
  rw [h1, h2]
  simp [h0, hp, sprintfPath, as3SharedApplication, String.append_assoc]

theorem serviceOf_one_policy_binds_path (DEFAULT_PARTITION : String) (cfg : ResourceConfig)
    (pol : nameRef) (h1 : cfg.Virtual.Policies = [pol]) :
    (serviceOf DEFAULT_PARTITION cfg).PolicyEndpoint =
      as3MultiTypeParam.str ("/" ++ DEFAULT_PARTITION ++ "/Shared/" ++ pol.Name) := by
  rw [(serviceOf_policyEndpoint_pool DEFAULT_PARTITION cfg).1]
  simp [h1, sprintfPath, as3SharedApplication, String.append_assoc]

/-- C1 (code departs from the claim): for a virtual with more than one policy
`createServiceDecl` stores, under the name of the virtual, a service whose
policy binding is the empty list of resource pointers: every pointer the loop
builds is appended to a list that is never kept, so the binding has length 0
and not the number of policies. -/
theorem createServiceDecl_many_policies_empty_binding (DEFAULT_PARTITION : String)
    (cfg : ResourceConfig) (sharedApp : as3Application)
    (h : cfg.Virtual.Policies.length > 1) :
    ∃ svc, mapGet (createServiceDecl DEFAULT_PARTITION cfg sharedApp) cfg.Virtual.Name
          = some (as3Value.service svc) ∧
      svc.PolicyEndpoint = as3MultiTypeParam.pointers [] := by
  refine ⟨serviceOf DEFAULT_PARTITION cfg, mapGet_mapSet_self _ _ _, ?_⟩
  rw [(serviceOf_policyEndpoint_pool DEFAULT_PARTITION cfg).1]
  have h1 : cfg.Virtual.Policies.length ≠ 1 := by omega
  simp [h1, h]

/-- Witness of C1: the resource `twoPolicyConfig`, whose virtual `vs` names
the two policies `policyA` and `policyB`, gets a service with an empty policy
binding. -/
theorem createServiceDecl_many_policies_empty_binding_witness :
    twoPolicyConfig.Virtual.Policies.length = 2 ∧
      ∃ svc, mapGet (createServiceDecl "k8s_AS3" twoPolicyConfig []) "vs"
            = some (as3Value.service svc) ∧
        svc.PolicyEndpoint = as3MultiTypeParam.pointers [] :=
  ⟨rfl, createServiceDecl_many_policies_empty_binding "k8s_AS3" twoPolicyConfig [] (by decide)⟩

/-! ## Host conditions (C2) -/

theorem createRuleCondition_eq (rl : Rule) (rulesData : as3Rule) (port : Int) :
    createRuleCondition rl rulesData port =
      { rulesData with
        Conditions := rulesData.Conditions ++ rl.Conditions.map (fun c => ruleConditionOf c port) } := by
  unfold createRuleCondition
  generalize rl.Conditions = cs
  induction cs generalizing rulesData with
  | nil => simp
  | cons c cs ih => simp [ih]

theorem ruleConditionOf_host (c : Condition) (port : Int) (h : c.Host = true) :
    (ruleConditionOf c port).Name = "host" ∧
      ∃ all, (ruleConditionOf c port).All = some all ∧
        all.Values = if port = 80 ∨ port = 443 then c.Values
                     else c.Values.map (fun v => v ++ ":" ++ Itoa port) := by
  unfold ruleConditionOf
  simp only [h, if_true]
  by_cases hp : port = 80 ∨ port = 443
  · have hn : ¬ (port ≠ 80 ∧ port ≠ 443) := by
      rcases hp with hp | hp <;> simp [hp]
    simp only [hn, hp, if_false, if_true]
    constructor
    · split <;> split <;> split <;> rfl
    · split <;> split <;> split <;> simp
  · have hn : port ≠ 80 ∧ port ≠ 443 := by
      constructor <;> intro e <;> exact hp (by simp [e])
    simp only [hn, hp, if_false, if_true, and_self, foldl_append_singleton, List.nil_append]
    constructor
    · split <;> split <;> split <;> rfl
    · split <;> split <;> split <;> simp

/-- C2: `createRuleCondition`, called with the port parsed from the
destination of the virtual, emits for the host condition at position `i` of
the rule a condition named "host" at the same position, whose value list has
the length of the input list and is the input list itself when the port is 80
or 443, and otherwise the input list with ":" and the decimal port appended
to every value, in order. -/
theorem createRuleCondition_host_values (dest : String) (rl : Rule) (rulesData : as3Rule)
    (i : Nat) (c : Condition) (hi : rl.Conditions[i]? = some c) (hHost : c.Host = true) :
    ∃ cond all,
      (createRuleCondition rl rulesData (extractVirtualAddressAndPort dest).2).Conditions[
          rulesData.Conditions.length + i]? = some cond ∧
      cond.Name = "host" ∧ cond.All = some all ∧
      all.Values.length = c.Values.length ∧
      all.Values =
        if (extractVirtualAddressAndPort dest).2 = 80 ∨ (extractVirtualAddressAndPort dest).2 = 443
        then c.Values
        else c.Values.map (fun v => v ++ ":" ++ Itoa (extractVirtualAddressAndPort dest).2) := by
  obtain ⟨hname, all, hall, hvals⟩ := ruleConditionOf_host c (extractVirtualAddressAndPort dest).2 hHost
  refine ⟨ruleConditionOf c (extractVirtualAddressAndPort dest).2, all, ?_, hname, hall, ?_, hvals⟩
  · rw [createRuleCondition_eq]
    simp [List.getElem?_append_right, hi]
  · rw [hvals]
    split <;> simp

/-- Witness of C2, the example of the claim: for the destination
`10.0.0.1:8080` the host condition with values `["example.com"]` is emitted
with values `["example.com:8080"]`; and `createPoliciesDecl` on the
end-to-end resource stores exactly that condition in the policy. -/
theorem createRuleCondition_host_values_witness :
    (∃ cond all,
      (createRuleCondition exampleRule { Name := "rule1" } 8080).Conditions[0]? = some cond ∧
      cond.Name = "host" ∧ cond.All = some all ∧
      all.Values.length = 1 ∧ all.Values = ["example.com:8080"]) ∧
    createPoliciesDecl exampleConfig [] =
      [("policy1", as3Value.policy
        { Class := "Endpoint_Policy", Strategy := "first-match",
          Rules := [{ Name := "rule1",
                      Conditions := [{ Name := "host",
                                       All := some { Values := ["example.com:8080"],
                                                     Operand := "equals" } }],
                      Actions := [{ Typ := "forward",
                                    Select := some { Pool := some { Use := "pool1" } } }] }] })] :=
  ⟨createRuleCondition_host_values "10.0.0.1:8080" exampleRule { Name := "rule1" } 0
      exampleHostCondition rfl rfl, by decide⟩

/-! ## Label selectors (C3) -/

theorem getNodesWithLabel_eq_filter (crMgr : CRManager) (sel key value : String)
    (hsel : sel.data = key.data ++ '=' :: value.data)
    (hk : '=' ∉ key.data) (hv : '=' ∉ value.data) :
    getNodesWithLabel crMgr sel =
      (getNodesFromCache crMgr).filter
        (fun node => decide ((mapGet node.Labels key).getD "" = value)) := by
  unfold getNodesWithLabel
  rw [Split_of_data sel key value '=' hsel hk hv]
  have h := foldl_append_if (fun node : Node => (mapGet node.Labels key).getD "" = value) id
    (getNodesFromCache crMgr) []
  simpa using h

/-- C3 (code departs from the claim): for the selector `key=` with the empty
value, `getNodesWithLabel` returns every cached node that has no entry for the
key, because the read of an absent key gives the empty string. -/
theorem getNodesWithLabel_empty_value_returns_unlabelled (crMgr : CRManager) (key : String)
    (hk : '=' ∉ key.data) (node : Node) (hn : node ∈ getNodesFromCache crMgr)
    (habs : mapGet node.Labels key = none) :
    node ∈ getNodesWithLabel crMgr (key ++ "=") := by
  rw [getNodesWithLabel_eq_filter crMgr (key ++ "=") key "" (by simp) hk (by simp)]
  simp [hn, habs]

/-- Witness of C3: with the cache `[n1 (no label), n2 (env=prod)]` the selector
`env=` returns `n1`, which has no `env` entry, and only it. -/
theorem getNodesWithLabel_empty_value_returns_unlabelled_witness :
    mapGet unlabelledNode.Labels "env" = none ∧
      unlabelledNode ∈ getNodesWithLabel twoNodeManager "env=" ∧
      getNodesWithLabel twoNodeManager "env=" = [unlabelledNode] :=
  ⟨rfl,
   getNodesWithLabel_empty_value_returns_unlabelled twoNodeManager "env" (by decide)
     unlabelledNode (by decide) rfl,
   by decide⟩

/-! ## Conversion of the raw node list (C4) -/

theorem mapSet_of_not_mem {α : Type} (m : List (String × α)) (k : String) (v : α)
    (h : k ∉ mapKeys m) : mapSet m k v = m ++ [(k, v)] := by
  induction m with
  | nil => simp [mapSet]
  | cons kv rest ih =>
    obtain ⟨k', v'⟩ := kv
    have h1 : k' ≠ k := fun e => h (by simp [mapKeys, e])
    have h2 : k ∉ mapKeys rest := fun e => h (by
      simp only [mapKeys, List.map_cons, List.mem_cons]
      exact Or.inr e)
    simp [mapSet, h1, ih h2]

theorem mapKeys_mapSet {α : Type} (m : List (String × α)) (k : String) (v : α) :
    mapKeys (mapSet m k v) = if k ∈ mapKeys m then mapKeys m else mapKeys m ++ [k] := by
  induction m with
  | nil => simp [mapSet, mapKeys]
  | cons kv rest ih =>
    obtain ⟨k', v'⟩ := kv
    by_cases h1 : k' = k
    · subst h1
      simp [mapSet, mapKeys]
    · have h1s : ¬ k = k' := fun e => h1 e.symm
      simp only [mapKeys] at ih
      simp only [mapSet, h1, if_false, mapKeys, List.map_cons, List.mem_cons, h1s, false_or, ih]
      split <;> simp

theorem mapSet_nodup {α : Type} (m : List (String × α)) (k : String) (v : α)
    (h : (mapKeys m).Nodup) : (mapKeys (mapSet m k v)).Nodup := by
  rw [mapKeys_mapSet]
  split
  · exact h
  · rename_i hk
    rw [List.nodup_append]
    refine ⟨h, by simp, ?_⟩
    intro a ha hb
    simp at hb
    subst hb
    exact hk ha

theorem foldl_mapSet_nodup (l acc : List (String × String)) (h : (mapKeys acc).Nodup) :
    (mapKeys (l.foldl
      (fun (m : List (String × String)) (kv : String × String) => mapSet m kv.1 kv.2) acc)).Nodup := by
  induction l generalizing acc with
  | nil => exact h
  | cons kv rest ih => exact ih _ (mapSet_nodup acc kv.1 kv.2 h)

theorem copyLabels_nodup (labels : List (String × String)) :
    (mapKeys (copyLabels labels)).Nodup :=
  foldl_mapSet_nodup labels [] (by simp [mapKeys])

theorem foldl_mapSet_eq_append (l acc : List (String × String))
    (h : (mapKeys (acc ++ l)).Nodup) :
    l.foldl (fun (m : List (String × String)) (kv : String × String) => mapSet m kv.1 kv.2) acc
      = acc ++ l := by
  induction l generalizing acc with
  | nil => simp
  | cons kv rest ih =>
    have hk : kv.1 ∉ mapKeys acc := by
      intro hmem
      simp only [mapKeys, List.map_append, List.map_cons] at h hmem
      rw [List.nodup_append] at h
      exact h.2.2 hmem (by simp)
    simp only [List.foldl_cons]
    rw [mapSet_of_not_mem acc kv.1 kv.2 hk, ih]
    · simp
    · simpa using h

theorem copyLabels_eq (labels : List (String × String)) (h : (mapKeys labels).Nodup) :
    copyLabels labels = labels := by
  have := foldl_mapSet_eq_append labels [] (by simpa using h)
  simpa [copyLabels] using this

theorem appendNodeRecords_eq (addrType : String) (watched : List Node) (node : v1.Node) :
    appendNodeRecords addrType watched node =
      watched ++ (node.Status.Addresses.filter (fun addr => decide (addr.Typ = addrType))).map
        (fun addr =>
          ({ Name := node.ObjectMeta.Name, Addr := addr.Address,
             Labels := copyLabels node.ObjectMeta.Labels } : Node)) := by
  unfold appendNodeRecords
  exact foldl_append_if (fun addr : v1.NodeAddress => addr.Typ = addrType) _ _ _

theorem foldl_appendNodeRecords (addrType : String) (nodes : List v1.Node) (watched : List Node)
    (hmaps : ∀ node ∈ nodes, (mapKeys node.ObjectMeta.Labels).Nodup) :
    nodes.foldl (appendNodeRecords addrType) watched =
      watched ++ recordsPerAddress addrType nodes := by
  induction nodes generalizing watched with
  | nil => simp [recordsPerAddress]
  | cons node rest ih =>
    have hrest : ∀ n ∈ rest, (mapKeys n.ObjectMeta.Labels).Nodup :=
      fun n hn => hmaps n (by simp [hn])
    have hnode := hmaps node (by simp)
    simp only [List.foldl_cons]
    rw [ih _ hrest, appendNodeRecords_eq, copyLabels_eq _ hnode]
    simp [recordsPerAddress]

theorem recordsPerAddress_length_le (addrType : String) (nodes : List v1.Node)
    (h : ∀ node ∈ nodes,
      (node.Status.Addresses.filter (fun addr => decide (addr.Typ = addrType))).length ≤ 1) :
    (recordsPerAddress addrType nodes).length ≤ nodes.length := by
  induction nodes with
  | nil => simp [recordsPerAddress]
  | cons node rest ih =>
    have h1 := h node (by simp)
    have h2 := ih (fun n hn => h n (by simp [hn]))
    simp only [recordsPerAddress, List.map_cons, List.flatten_cons, List.length_append,
      List.length_map, List.length_cons] at h2 ⊢
    omega

/-- C4 as the claim states it fails: a node with two addresses of the internal
family gives two records, so the result has more records than there are
input nodes. -/
theorem getNodes_dual_stack_counterexample :
    getNodes { UseNodeInternal := true } (PollObject.nodes [dualStackNode]) =
        Except.ok [{ Name := "n1", Addr := "10.0.0.1", Labels := [("env", "prod")] },
                   { Name := "n1", Addr := "fd00::1", Labels := [("env", "prod")] }] ∧
      [dualStackNode].length < 2 :=
  ⟨rfl, by decide⟩

theorem recordsPerAddress_length (addrType : String) (nodes : List v1.Node) :
    (recordsPerAddress addrType nodes).length =
      (nodes.map (fun node =>
        (node.Status.Addresses.filter (fun addr => decide (addr.Typ = addrType))).length)).sum := by
  induction nodes with
  | nil => simp [recordsPerAddress]
  | cons node rest ih =>
    simp only [recordsPerAddress, List.map_cons, List.flatten_cons, List.length_append,
      List.length_map, List.sum_cons] at ih ⊢
    omega

/-- C4 as amended: `getNodes` yields, for each input node in order, exactly
one record per address of the preferred family (internal or external), in
address order, carrying the name of the node, that address and a copy of its
labels, and no record for a node that has no such address; the number of
records is the number of addresses of the preferred family over all input
nodes, so the result has no more records than input nodes when no node has
two addresses of the preferred family. -/
theorem getNodes_one_record_per_preferred_address (crMgr : CRManager) (nodes : List v1.Node)
    (hmaps : ∀ node ∈ nodes, (mapKeys node.ObjectMeta.Labels).Nodup) :
    getNodes crMgr (PollObject.nodes nodes) =
        Except.ok (recordsPerAddress
          (if crMgr.UseNodeInternal then v1.NodeInternalIP else v1.NodeExternalIP) nodes) ∧
      (recordsPerAddress
          (if crMgr.UseNodeInternal then v1.NodeInternalIP else v1.NodeExternalIP) nodes).length =
        (nodes.map (fun node =>
          (node.Status.Addresses.filter (fun addr => decide (addr.Typ =
            (if crMgr.UseNodeInternal then v1.NodeInternalIP else v1.NodeExternalIP)))).length)).sum ∧
      ((∀ node ∈ nodes, (node.Status.Addresses.filter (fun addr => decide (addr.Typ =
            (if crMgr.UseNodeInternal then v1.NodeInternalIP else v1.NodeExternalIP)))).length ≤ 1) →
        (recordsPerAddress
          (if crMgr.UseNodeInternal then v1.NodeInternalIP else v1.NodeExternalIP) nodes).length
          ≤ nodes.length) := by
  refine ⟨?_, recordsPerAddress_length _ nodes, recordsPerAddress_length_le _ nodes⟩
  unfold getNodes
  simp only []
  rw [foldl_appendNodeRecords _ nodes [] hmaps]
  simp

/-- Witness of C4 as amended: the dual-stack node followed by a node that has
only an external address gives, for the internal family, the two records of
the first node and nothing for the second. -/
theorem getNodes_one_record_per_preferred_address_witness :
    getNodes { UseNodeInternal := true } (PollObject.nodes [dualStackNode, externalOnlyNode]) =
      Except.ok [{ Name := "n1", Addr := "10.0.0.1", Labels := [("env", "prod")] },
                 { Name := "n1", Addr := "fd00::1", Labels := [("env", "prod")] }] :=
  (getNodes_one_record_per_preferred_address { UseNodeInternal := true }
    [dualStackNode, externalOnlyNode] (by decide)).1

/-! ## The agent (C5, C6) -/

theorem DeepEqualJSON_self {τ : Type} [DecidableEq τ] (json : JSONCodec τ) (decl : String)
    (h : decl ≠ "" → (json.Unmarshal decl).isSome) : DeepEqualJSON json decl decl = true := by
  unfold DeepEqualJSON
  by_cases he : decl = ""
  · simp [he]
  · have hs := h he
    cases hu : json.Unmarshal decl with
    | none => simp [hu] at hs
    | some o => simp [he]

theorem createAS3Declaration_parses {τ : Type} (json : JSONCodec τ)
    (hvalid : ∀ cfg s, json.Marshal cfg = some s → s ≠ "" → (json.Unmarshal s).isSome)
    (DEFAULT_PARTITION : String) (rsCfgs : ResourceConfigs) :
    createAS3Declaration json DEFAULT_PARTITION rsCfgs ≠ "" →
      (json.Unmarshal (createAS3Declaration json DEFAULT_PARTITION rsCfgs)).isSome := by
  unfold createAS3Declaration
  cases hm : json.Marshal (as3ConfigOf DEFAULT_PARTITION rsCfgs) with
  | none => simp
  | some s =>
    intro hne
    exact hvalid _ s hm (by simpa using hne)

theorem PostConfig_activeDecl {τ : Type} [DecidableEq τ] (json : JSONCodec τ)
    (DEFAULT_PARTITION : String) (GetAllPoolMembers : ResourceConfigs → List Member)
    (env : PostEnv) (agent : Agent) (rsCfgs : ResourceConfigs)
    (h : DeepEqualJSON json agent.activeDecl
      (createAS3Declaration json DEFAULT_PARTITION rsCfgs) = false) :
    (PostConfig json DEFAULT_PARTITION GetAllPoolMembers env agent rsCfgs).activeDecl =
      createAS3Declaration json DEFAULT_PARTITION rsCfgs := by
  unfold PostConfig
  simp only [h]
  cases agent.EventChan with
  | none => simp
  | some taken =>
    by_cases hr : env.received = true <;> simp [hr]

/-- C5: when `json.Marshal` only produces texts that `json.Unmarshal` accepts,
a second `PostConfig` with the same resource set and partition finds the
candidate structurally equal to the cached declaration and changes nothing:
no write, no publication, the same cached declaration. -/
theorem PostConfig_idempotent {τ : Type} [DecidableEq τ] (json : JSONCodec τ)
    (hvalid : ∀ cfg s, json.Marshal cfg = some s → s ≠ "" → (json.Unmarshal s).isSome)
    (DEFAULT_PARTITION : String) (GetAllPoolMembers : ResourceConfigs → List Member)
    (env1 env2 : PostEnv) (agent : Agent) (rsCfgs : ResourceConfigs) :
    DeepEqualJSON json
        (PostConfig json DEFAULT_PARTITION GetAllPoolMembers env1 agent rsCfgs).activeDecl
        (createAS3Declaration json DEFAULT_PARTITION rsCfgs) = true ∧
      PostConfig json DEFAULT_PARTITION GetAllPoolMembers env2
          (PostConfig json DEFAULT_PARTITION GetAllPoolMembers env1 agent rsCfgs) rsCfgs
        = PostConfig json DEFAULT_PARTITION GetAllPoolMembers env1 agent rsCfgs := by
  have key : DeepEqualJSON json
      (PostConfig json DEFAULT_PARTITION GetAllPoolMembers env1 agent rsCfgs).activeDecl
      (createAS3Declaration json DEFAULT_PARTITION rsCfgs) = true := by
    cases hd : DeepEqualJSON json agent.activeDecl
        (createAS3Declaration json DEFAULT_PARTITION rsCfgs) with
    | true =>
      have : PostConfig json DEFAULT_PARTITION GetAllPoolMembers env1 agent rsCfgs = agent := by
        unfold PostConfig
        simp [hd]
      rw [this, hd]
    | false =>
      rw [PostConfig_activeDecl json DEFAULT_PARTITION GetAllPoolMembers env1 agent rsCfgs hd]
      exact DeepEqualJSON_self json _
        (createAS3Declaration_parses json hvalid DEFAULT_PARTITION rsCfgs)
  refine ⟨key, ?_⟩
  generalize PostConfig json DEFAULT_PARTITION GetAllPoolMembers env1 agent rsCfgs = a1 at key ⊢
  unfold PostConfig
  simp [key]

/-- Witness of C5: with the example codec, the agent `NewAgent` creates posts
the example resource once (one write, one publication); the second post of
the same resource leaves that state as it is. -/
theorem PostConfig_idempotent_witness :
    (PostConfig exampleCodec "k8s_AS3" exampleGetAllPoolMembers ⟨true, true⟩
        (NewAgent "k8s") [exampleConfig]).written = [("declaration:class,schemaVersion,id,label,remark,k8s_AS3", true)] ∧
    DeepEqualJSON exampleCodec
        (PostConfig exampleCodec "k8s_AS3" exampleGetAllPoolMembers ⟨true, true⟩
          (NewAgent "k8s") [exampleConfig]).activeDecl
        (createAS3Declaration exampleCodec "k8s_AS3" [exampleConfig]) = true ∧
      PostConfig exampleCodec "k8s_AS3" exampleGetAllPoolMembers ⟨true, true⟩
          (PostConfig exampleCodec "k8s_AS3" exampleGetAllPoolMembers ⟨true, true⟩
            (NewAgent "k8s") [exampleConfig]) [exampleConfig]
        = PostConfig exampleCodec "k8s_AS3" exampleGetAllPoolMembers ⟨true, true⟩
            (NewAgent "k8s") [exampleConfig] :=
  ⟨by decide,
   PostConfig_idempotent exampleCodec
    (fun _ s _ hne => by simp [exampleCodec, hne])
    "k8s_AS3" exampleGetAllPoolMembers ⟨true, true⟩ ⟨true, true⟩ (NewAgent "k8s") [exampleConfig]⟩

/-- C6: `PostConfig` does exactly one of two things. When the candidate is
structurally equal to the cached declaration the agent is unchanged (no
write, no publication, same cache). Otherwise exactly one write, of the
candidate, is added to the writes, and the cache is the candidate whatever
outcome the writer reports; the members of all pools are published once when
there is a channel and a receiver takes them in time. -/
theorem PostConfig_noop_or_single_write {τ : Type} [DecidableEq τ] (json : JSONCodec τ)
    (DEFAULT_PARTITION : String) (GetAllPoolMembers : ResourceConfigs → List Member)
    (env : PostEnv) (agent : Agent) (rsCfgs : ResourceConfigs) :
    (DeepEqualJSON json agent.activeDecl
          (createAS3Declaration json DEFAULT_PARTITION rsCfgs) = true ∧
        PostConfig json DEFAULT_PARTITION GetAllPoolMembers env agent rsCfgs = agent) ∨
    (DeepEqualJSON json agent.activeDecl
          (createAS3Declaration json DEFAULT_PARTITION rsCfgs) = false ∧
        (PostConfig json DEFAULT_PARTITION GetAllPoolMembers env agent rsCfgs).written =
          agent.written ++ [(createAS3Declaration json DEFAULT_PARTITION rsCfgs, env.writeOk)] ∧
        (PostConfig json DEFAULT_PARTITION GetAllPoolMembers env agent rsCfgs).activeDecl =
          createAS3Declaration json DEFAULT_PARTITION rsCfgs ∧
        (PostConfig json DEFAULT_PARTITION GetAllPoolMembers env agent rsCfgs).Partition =
          agent.Partition ∧
        (PostConfig json DEFAULT_PARTITION GetAllPoolMembers env agent rsCfgs).EventChan =
          agent.EventChan.map (fun taken =>
            if env.received then taken ++ [GetAllPoolMembers rsCfgs] else taken)) := by
  cases hd : DeepEqualJSON json agent.activeDecl
      (createAS3Declaration json DEFAULT_PARTITION rsCfgs) with
  | true =>
    left
    refine ⟨rfl, ?_⟩
    unfold PostConfig
    simp [hd]
  | false =>
    right
    refine ⟨rfl, ?_⟩
    unfold PostConfig
    simp only [hd]
    have hconv : (GetAllPoolMembers rsCfgs).foldl
        (fun (acc : List Member) (poolMem : Member) => acc ++ [poolMem]) []
        = GetAllPoolMembers rsCfgs := by
      have := foldl_append_singleton (fun m : Member => m) (GetAllPoolMembers rsCfgs) []
      simpa using this
    cases hc : agent.EventChan with
    | none => simp
    | some taken =>
      by_cases hr : env.received = true <;> simp [hr, hconv]

/-! ## Node polls: errors and the initial state (C7, C9) -/

/-- C7: a poll that reports an error, or whose payload is not a node list,
leaves the whole state of the manager as it is, so the node cache is
unchanged and nothing is added to the resource queue, whatever the initial
flag and the controller mode are. -/
theorem ProcessNodeUpdate_error_is_noop (NodePortMode : String) (inf : Informers)
    (crMgr : CRManager) (obj : PollObject) (err : Option String) (e : String) :
    ProcessNodeUpdate NodePortMode inf crMgr obj (some e) = crMgr ∧
      ProcessNodeUpdate NodePortMode inf crMgr PollObject.other err = crMgr := by
  constructor
  · rfl
  · cases err <;> rfl

/-- C9: an error-free poll received in the initial state sets the node cache
to the converted snapshot and changes nothing else; in particular nothing is
added to the resource queue, whatever the controller mode and the previous
cache are. -/
theorem ProcessNodeUpdate_initial_seeds_cache (NodePortMode : String) (inf : Informers)
    (crMgr : CRManager) (nodes : List v1.Node) (h : crMgr.initState = true) :
    ∃ newNodes, getNodes crMgr (PollObject.nodes nodes) = Except.ok newNodes ∧
      ProcessNodeUpdate NodePortMode inf crMgr (PollObject.nodes nodes) none =
        { crMgr with oldNodes := some newNodes } ∧
      (ProcessNodeUpdate NodePortMode inf crMgr (PollObject.nodes nodes) none).rscQueue =
        crMgr.rscQueue := by
  refine ⟨_, rfl, ?_, ?_⟩ <;> simp [ProcessNodeUpdate, getNodes, h]

/-- Witness of C9: a manager in node-port mode and in its initial state, with
a stale cache, takes the snapshot of the dual-stack node as its cache and
adds no key. -/
theorem ProcessNodeUpdate_initial_seeds_cache_witness :
    ∃ newNodes,
      getNodes { initState := true, UseNodeInternal := true, ControllerMode := "nodeport",
                 oldNodes := some [unlabelledNode] } (PollObject.nodes [dualStackNode])
        = Except.ok newNodes ∧
      ProcessNodeUpdate "nodeport" exampleInformers
          { initState := true, UseNodeInternal := true, ControllerMode := "nodeport",
            oldNodes := some [unlabelledNode] } (PollObject.nodes [dualStackNode]) none =
        { initState := true, UseNodeInternal := true, ControllerMode := "nodeport",
          oldNodes := some newNodes } ∧
      (ProcessNodeUpdate "nodeport" exampleInformers
          { initState := true, UseNodeInternal := true, ControllerMode := "nodeport",
            oldNodes := some [unlabelledNode] } (PollObject.nodes [dualStackNode]) none).rscQueue
        = [] :=
  ProcessNodeUpdate_initial_seeds_cache "nodeport" exampleInformers
    { initState := true, UseNodeInternal := true, ControllerMode := "nodeport",
      oldNodes := some [unlabelledNode] } [dualStackNode] rfl

/-! ## Destinations (C10) -/

theorem match_two_parts_default {β : Type} (f : String → String → β) (d : β) :
    ∀ l : List String, l.length ≠ 2 →
      (match l with
        | [ip, port] => f ip port
        | _ => d) = d := by
  intro l h
  match l, h with
  | [], _ => rfl
  | [_], _ => rfl
  | [_, _], h => exact absurd rfl h
  | _ :: _ :: _ :: _, _ => rfl

theorem extractVirtualAddressAndPort_of_split (str ip port : String)
    (h : Split (lastSegment str '/') ':' = [ip, port]) :
    extractVirtualAddressAndPort str = (ip, Atoi port) := by
  unfold extractVirtualAddressAndPort
  simp only [h]

/-- The shapes of a destination on which `extractVirtualAddressAndPort` does
what is expected of it. It looks only at the last '/'-segment of the
destination. When that segment is an address without ':' followed by ':' and
a decimal port number, the result is that address and that port; more
generally a segment of exactly two ':'-parts gives the first part and
`strconv.Atoi` of the second. When the segment has no ':' or more than one,
the result is the empty address and port 0. -/
theorem extractVirtualAddressAndPort_shapes (str : String) :
    extractVirtualAddressAndPort str = extractVirtualAddressAndPort (lastSegment str '/') ∧
    (∀ (ip : String) (n : Nat), lastSegment str '/' = ip ++ ":" ++ Itoa (n : Int) →
        ':' ∉ ip.data → n < 2 ^ 63 → extractVirtualAddressAndPort str = (ip, (n : Int))) ∧
    (∀ ip port : String, Split (lastSegment str '/') ':' = [ip, port] →
        extractVirtualAddressAndPort str = (ip, Atoi port)) ∧
    ((lastSegment str '/').data.count ':' ≠ 1 → extractVirtualAddressAndPort str = ("", 0)) := by
  refine ⟨?_, ?_, extractVirtualAddressAndPort_of_split str, ?_⟩
  · unfold extractVirtualAddressAndPort
    rw [lastSegment_idem]
  · intro ip n hseg hip hn
    have hdig : ':' ∉ (Itoa (n : Int)).data := by
      intro hmem
      have := Itoa_natCast_digits n hn ':' hmem
      simp [Char.isDigit] at this
    have hsplit : Split (lastSegment str '/') ':' = [ip, Itoa (n : Int)] :=
      Split_of_data _ ip (Itoa (n : Int)) ':' (by simp [hseg]) hip hdig
    rw [extractVirtualAddressAndPort_of_split str ip _ hsplit, Atoi_Itoa_natCast n hn]
  · intro hcount
    have hlen : (Split (lastSegment str '/') ':').length ≠ 2 := by
      rw [Split_length]
      omega
    unfold extractVirtualAddressAndPort
    exact match_two_parts_default _ _ _ hlen

/-- Examples of the shapes: the destination `/part/10.0.0.1:8080` gives the
address `10.0.0.1` and the port 8080; a last segment without ':' and one with
two ':' give the empty address and port 0. -/
theorem extractVirtualAddressAndPort_shapes_witness :
    extractVirtualAddressAndPort "/part/10.0.0.1:8080" = ("10.0.0.1", 8080) ∧
      extractVirtualAddressAndPort "/part/10.0.0.1" = ("", 0) ∧
      extractVirtualAddressAndPort "/part/10.0.0.1:80:80" = ("", 0) :=
  ⟨(extractVirtualAddressAndPort_shapes "/part/10.0.0.1:8080").2.1 "10.0.0.1" 8080
      (by decide) (by decide) (by decide),
   (extractVirtualAddressAndPort_shapes "/part/10.0.0.1").2.2.2 (by decide),
   (extractVirtualAddressAndPort_shapes "/part/10.0.0.1:80:80").2.2.2 (by decide)⟩

theorem Atoi_of_not_number (port : String)
    (hbad : ∀ c ∈ port.data.head?, c.isDigit = false ∧ c ≠ '+' ∧ c ≠ '-') :
    Atoi port = 0 := by
  unfold Atoi
  cases hd : port.data with
  | nil => rfl
  | cons c cs =>
    obtain ⟨h1, h2, h3⟩ := hbad c (by simp [hd])
    simp [h2, h3, parseUintLoop, h1]

/-- C10 (code departs from the claim): when the last '/'-segment of the
destination has exactly one ':' and what follows it is not a number (it is
empty, or starts with a character that is neither a digit nor a sign),
`extractVirtualAddressAndPort` returns the part before the ':' as address,
with port 0: only the number of parts is verified, the error of
`strconv.Atoi` is dropped. The address is not the empty one although the
segment has not the shape `ip:port`. -/
theorem extractVirtualAddressAndPort_port_not_verified (str ip port : String)
    (hseg : lastSegment str '/' = ip ++ ":" ++ port)
    (hip : ':' ∉ ip.data) (hport : ':' ∉ port.data)
    (hbad : ∀ c ∈ port.data.head?, c.isDigit = false ∧ c ≠ '+' ∧ c ≠ '-') :
    extractVirtualAddressAndPort str = (ip, 0) := by
  have hsplit : Split (lastSegment str '/') ':' = [ip, port] :=
    Split_of_data _ ip port ':' (by simp [hseg]) hip hport
  rw [extractVirtualAddressAndPort_of_split str ip port hsplit, Atoi_of_not_number port hbad]

/-- Witness of C10: the destinations `/part/10.0.0.1:abc` and `10.0.0.1:`
give the address `10.0.0.1` and the port 0, not the empty address. -/
theorem extractVirtualAddressAndPort_port_not_verified_witness :
    extractVirtualAddressAndPort "/part/10.0.0.1:abc" = ("10.0.0.1", 0) ∧
      extractVirtualAddressAndPort "10.0.0.1:" = ("10.0.0.1", 0) ∧
      extractVirtualAddressAndPort "/part/10.0.0.1:abc" ≠ ("", 0) :=
  ⟨extractVirtualAddressAndPort_port_not_verified "/part/10.0.0.1:abc" "10.0.0.1" "abc"
      (by decide) (by decide) (by decide) (by decide),
   extractVirtualAddressAndPort_port_not_verified "10.0.0.1:" "10.0.0.1" ""
      (by decide) (by decide) (by decide) (by decide),
   by decide⟩

/-! ## Node polls past the initial state (C8) -/

theorem mapGet_eq_none_iff {α : Type} (m : List (String × α)) (k : String) :
    mapGet m k = none ↔ k ∉ mapKeys m := by
  induction m with
  | nil => simp [mapGet, mapKeys]
  | cons kv rest ih =>
    obtain ⟨k', v'⟩ := kv
    simp only [mapKeys] at ih
    by_cases h : k' = k
    · subst h
      simp [mapGet, mapKeys]
    · have h' : ¬ k = k' := fun e => h e.symm
      simp [mapGet, mapKeys, h, h', ih]

theorem mem_of_mapGet_eq_some {α : Type} (m : List (String × α)) (k : String) (v : α)
    (h : mapGet m k = some v) : (k, v) ∈ m := by
  induction m with
  | nil => simp [mapGet] at h
  | cons kv rest ih =>
    obtain ⟨k', v'⟩ := kv
    by_cases hk : k' = k
    · subst hk
      simp [mapGet] at h
      simp [h]
    · simp [mapGet, hk] at h
      simp [ih h]

theorem mapGet_of_mem_nodup {α : Type} (m : List (String × α)) (k : String) (v : α)
    (hnd : (mapKeys m).Nodup) (h : (k, v) ∈ m) : mapGet m k = some v := by
  induction m with
  | nil => simp at h
  | cons kv rest ih =>
    obtain ⟨k', v'⟩ := kv
    simp only [mapKeys, List.map_cons, List.nodup_cons] at hnd
    simp only [List.mem_cons, Prod.mk.injEq] at h
    rcases h with ⟨hk, hv⟩ | h
    · subst hk
      subst hv
      simp [mapGet]
    · have hne : k' ≠ k := by
        intro e
        subst e
        exact hnd.1 (List.mem_map_of_mem Prod.fst h)
      simp [mapGet, hne, ih hnd.2 h]

theorem labelsDeepEqual_iff (m1 m2 : List (String × String))
    (h1 : (mapKeys m1).Nodup) (h2 : (mapKeys m2).Nodup) :
    labelsDeepEqual m1 m2 = true ↔ ∀ k, mapGet m1 k = mapGet m2 k := by
  unfold labelsDeepEqual
  simp only [Bool.and_eq_true, beq_iff_eq, List.all_eq_true]
  constructor
  · rintro ⟨hlen, hall⟩ k
    cases hg : mapGet m1 k with
    | some v =>
      have hmem := mem_of_mapGet_eq_some m1 k v hg
      exact (hall (k, v) hmem).symm
    | none =>
      have hk1 : k ∉ mapKeys m1 := (mapGet_eq_none_iff m1 k).1 hg
      have hsub : mapKeys m1 ⊆ mapKeys m2 := by
        intro x hx
        simp only [mapKeys, List.mem_map] at hx
        obtain ⟨⟨a, b⟩, hab, rfl⟩ := hx
        by_contra hcon
        have hnone := (mapGet_eq_none_iff m2 a).2 hcon
        have hsome := hall (a, b) hab
        simp [hnone] at hsome
      have hperm : (mapKeys m1).Perm (mapKeys m2) :=
        (List.subperm_of_subset h1 hsub).perm_of_length_le (by simp [mapKeys, hlen])
      have hk2 : k ∉ mapKeys m2 := fun hm => hk1 (hperm.mem_iff.2 hm)
      exact ((mapGet_eq_none_iff m2 k).2 hk2).symm
  · intro hall
    have hkeys : ∀ k, k ∈ mapKeys m1 ↔ k ∈ mapKeys m2 := by
      intro k
      have e1 := mapGet_eq_none_iff m1 k
      have e2 := mapGet_eq_none_iff m2 k
      rw [hall k] at e1
      constructor
      · intro hk
        by_contra hcon
        exact (e1.1 (e2.2 hcon)) hk
      · intro hk
        by_contra hcon
        exact (e2.1 (e1.2 hcon)) hk
    have hperm : (mapKeys m1).Perm (mapKeys m2) := (List.perm_ext_iff_of_nodup h1 h2).2 hkeys
    refine ⟨?_, ?_⟩
    · have := hperm.length_eq
      simpa [mapKeys] using this
    · rintro ⟨a, b⟩ hab
      have := mapGet_of_mem_nodup m1 a b h1 hab
      rw [hall a] at this
      simp [this]

theorem nodeDeepEqual_iff (a b : Node) (ha : (mapKeys a.Labels).Nodup)
    (hb : (mapKeys b.Labels).Nodup) : nodeDeepEqual a b = true ↔ sameRecord a b := by
  unfold nodeDeepEqual sameRecord
  simp only [Bool.and_eq_true, beq_iff_eq, labelsDeepEqual_iff _ _ ha hb, and_assoc]

theorem nodeListDeepEqual_iff (a b : List Node)
    (ha : ∀ n ∈ a, (mapKeys n.Labels).Nodup) (hb : ∀ n ∈ b, (mapKeys n.Labels).Nodup) :
    nodeListDeepEqual a b = true ↔ sameOrderedList a b := by
  unfold sameOrderedList
  induction a generalizing b with
  | nil =>
    cases b with
    | nil => simp [nodeListDeepEqual]
    | cons y ys => simp [nodeListDeepEqual]
  | cons x xs ih =>
    cases b with
    | nil => simp [nodeListDeepEqual]
    | cons y ys =>
      have hx := ha x (by simp)
      have hy := hb y (by simp)
      have hxs : ∀ n ∈ xs, (mapKeys n.Labels).Nodup := fun n hn => ha n (by simp [hn])
      have hys : ∀ n ∈ ys, (mapKeys n.Labels).Nodup := fun n hn => hb n (by simp [hn])
      simp only [nodeListDeepEqual, Bool.and_eq_true, List.forall₂_cons,
        nodeDeepEqual_iff x y hx hy, ih ys hxs hys]

theorem nodesDeepEqual_iff (newNodes : List Node) (cache : Option (List Node))
    (hnew : ∀ n ∈ newNodes, (mapKeys n.Labels).Nodup)
    (hold : ∀ old, cache = some old → ∀ n ∈ old, (mapKeys n.Labels).Nodup) :
    nodesDeepEqual (some newNodes) cache = true ↔
      ∃ old, cache = some old ∧ sameOrderedList newNodes old := by
  cases cache with
  | none => simp [nodesDeepEqual]
  | some old =>
    simp only [nodesDeepEqual, Bool.and_eq_true, beq_iff_eq, Option.some.injEq,
      exists_eq_left', nodeListDeepEqual_iff newNodes old hnew (hold old rfl)]
    constructor
    · exact fun h => h.2
    · intro h
      exact ⟨List.Forall₂.length_eq h, h⟩

theorem appendNodeRecords_labels_nodup (addrType : String) (watched : List Node) (node : v1.Node)
    (h : ∀ n ∈ watched, (mapKeys n.Labels).Nodup) :
    ∀ n ∈ appendNodeRecords addrType watched node, (mapKeys n.Labels).Nodup := by
  rw [appendNodeRecords_eq]
  intro n hn
  simp only [List.mem_append, List.mem_map, List.mem_filter] at hn
  rcases hn with hn | ⟨addr, _, rfl⟩
  · exact h n hn
  · exact copyLabels_nodup _

theorem getNodes_labels_nodup (crMgr : CRManager) (obj : PollObject) (newNodes : List Node)
    (h : getNodes crMgr obj = Except.ok newNodes) :
    ∀ n ∈ newNodes, (mapKeys n.Labels).Nodup := by
  cases obj with
  | other => simp [getNodes] at h
  | nodes nodes =>
    simp only [getNodes, Except.ok.injEq] at h
    subst h
    generalize (if crMgr.UseNodeInternal = true then v1.NodeInternalIP else v1.NodeExternalIP) = t
    have key : ∀ (l : List v1.Node) (w : List Node), (∀ n ∈ w, (mapKeys n.Labels).Nodup) →
        ∀ n ∈ l.foldl (appendNodeRecords t) w, (mapKeys n.Labels).Nodup := by
      intro l
      induction l with
      | nil => exact fun w hw => hw
      | cons x xs ih =>
        intro w hw
        exact ih _ (appendNodeRecords_labels_nodup t w x hw)
    exact key nodes [] (by simp)

theorem enqueueAllVirtuals_eq (virtuals : List cisapiv1.VirtualServer) (queue : List rqKey) :
    enqueueAllVirtuals virtuals queue =
      queue ++ virtuals.map
        (fun vs => ({ namespace_ := vs.ObjectMeta.Namespace, kind := VirtualServer,
                      rscName := vs.ObjectMeta.Name, rsc := vs, rscDelete := false } : rqKey)) := by
  unfold enqueueAllVirtuals
  split
  · exact foldl_append_singleton _ _ _
  · rename_i h
    have : virtuals = [] := by
      cases virtuals with
      | nil => rfl
      | cons _ _ => simp at h
    simp [this]

theorem enqueueNamespaces_eq (inf : Informers) (namespaces : List String) (queue : List rqKey) :
    enqueueNamespaces inf namespaces queue =
      queue ++ (namespaces.map (fun ns =>
        (inf.getAllVirtualServers ns).map
          (fun vs => ({ namespace_ := ns, kind := VirtualServer,
                        rscName := vs.ObjectMeta.Name, rsc := vs, rscDelete := false } : rqKey)))).flatten := by
  unfold enqueueNamespaces
  induction namespaces generalizing queue with
  | nil => simp
  | cons ns rest ih =>
    simp only [List.foldl_cons, List.map_cons, List.flatten_cons]
    rw [ih, foldl_append_singleton]
    simp

/-- C8 as the claim states it fails: past the initial state, with a cache that
was never filled (the nil slice, read back as the empty list), a poll whose
converted snapshot is the empty list equals the cached list as an ordered
list, yet in node-port mode a resync key is enqueued and the cache changes,
because `reflect.DeepEqual` tells an empty slice from the nil slice. -/
theorem ProcessNodeUpdate_unfilled_cache_counterexample :
    unfilledManager.initState = false ∧
      getNodes unfilledManager (PollObject.nodes [externalOnlyNode]) = Except.ok [] ∧
      getNodesFromCache unfilledManager = [] ∧
      ProcessNodeUpdate "nodeport" exampleInformers unfilledManager
          (PollObject.nodes [externalOnlyNode]) none =
        { unfilledManager with
          oldNodes := some [],
          rscQueue := [{ namespace_ := "default", kind := VirtualServer, rscName := "vs1",
                         rsc := { ObjectMeta := { Name := "vs1", Namespace := "default" } },
                         rscDelete := false }] } :=
  ⟨rfl, rfl, rfl, by decide⟩

/-- C8 as amended: past the initial state, on an error-free poll, when the
cache has been filled (it is not the nil slice) and the converted snapshot
equals it as an ordered list, the state of the manager is unchanged (nothing
enqueued, same cache); in every other case (a different snapshot, also one
with the same records in another order, or a cache never filled) the cache
becomes the snapshot, and one resync key per known virtual server is added to
the queue exactly when the controller mode is the node-port mode. -/
theorem ProcessNodeUpdate_steady_state (NodePortMode : String) (inf : Informers)
    (crMgr : CRManager) (nodes : List v1.Node) (newNodes : List Node)
    (hinit : crMgr.initState = false)
    (hnew : getNodes crMgr (PollObject.nodes nodes) = Except.ok newNodes)
    (hold : ∀ old, crMgr.oldNodes = some old → ∀ n ∈ old, (mapKeys n.Labels).Nodup) :
    ((∃ old, crMgr.oldNodes = some old ∧ sameOrderedList newNodes old) →
      ProcessNodeUpdate NodePortMode inf crMgr (PollObject.nodes nodes) none = crMgr) ∧
    ((¬ ∃ old, crMgr.oldNodes = some old ∧ sameOrderedList newNodes old) →
      ProcessNodeUpdate NodePortMode inf crMgr (PollObject.nodes nodes) none =
        { crMgr with
          oldNodes := some newNodes,
          rscQueue := crMgr.rscQueue ++
            (if crMgr.ControllerMode = NodePortMode then resyncKeys inf crMgr.namespaces
             else []) }) := by
  have hiff := nodesDeepEqual_iff newNodes crMgr.oldNodes
    (getNodes_labels_nodup crMgr _ newNodes hnew) hold
  constructor
  · intro heq
    have hd : nodesDeepEqual (some newNodes) crMgr.oldNodes = true := hiff.2 heq
    simp [ProcessNodeUpdate, hnew, hinit, hd]
  · intro hne
    have hd : nodesDeepEqual (some newNodes) crMgr.oldNodes = false := by
      cases h : nodesDeepEqual (some newNodes) crMgr.oldNodes with
      | true => exact absurd (hiff.1 h) hne
      | false => rfl
    simp only [ProcessNodeUpdate, hnew, hinit, hd]
    by_cases hm : crMgr.ControllerMode = NodePortMode
    · by_cases hw : inf.watchingAllNamespaces = true
      · simp [hm, hw, hinit, resyncKeys, enqueueAllVirtuals_eq]
      · simp [hm, hw, hinit, resyncKeys, enqueueNamespaces_eq]
    · simp [hm, hinit]

/-- Witness of C8 as amended: the manager whose cache holds the records of
the nodes `a`, `b` stays as it is when the poll lists `a`, `b`; when the poll
lists `b`, `a` the cache becomes the new list and, the mode being node-port,
the key of the one known virtual server is enqueued. -/
theorem ProcessNodeUpdate_steady_state_witness :
    ProcessNodeUpdate "nodeport" exampleInformers steadyManager
        (PollObject.nodes [rawNodeA, rawNodeB]) none = steadyManager ∧
    ProcessNodeUpdate "nodeport" exampleInformers steadyManager
        (PollObject.nodes [rawNodeB, rawNodeA]) none =
      { steadyManager with
        oldNodes := some [{ Name := "b", Addr := "10.0.0.2", Labels := [] },
                          { Name := "a", Addr := "10.0.0.1", Labels := [] }],
        rscQueue := [{ namespace_ := "default", kind := VirtualServer, rscName := "vs1",
                       rsc := { ObjectMeta := { Name := "vs1", Namespace := "default" } },
                       rscDelete := false }] } := by
  have hold : ∀ old, steadyManager.oldNodes = some old →
      ∀ n ∈ old, (mapKeys n.Labels).Nodup := by
    intro old ho n hn
    simp only [steadyManager, Option.some.injEq] at ho
    subst ho
    simp only [List.mem_cons, List.mem_singleton, List.not_mem_nil, or_false] at hn
    rcases hn with rfl | rfl <;> simp [mapKeys]
  constructor
  · refine (ProcessNodeUpdate_steady_state "nodeport" exampleInformers steadyManager
      [rawNodeA, rawNodeB] _ rfl rfl hold).1 ⟨_, rfl, ?_⟩
    refine List.Forall₂.cons ⟨rfl, rfl, fun _ => rfl⟩
      (List.Forall₂.cons ⟨rfl, rfl, fun _ => rfl⟩ List.Forall₂.nil)
  · refine (ProcessNodeUpdate_steady_state "nodeport" exampleInformers steadyManager
      [rawNodeB, rawNodeA] _ rfl rfl hold).2 ?_
    rintro ⟨old, ho, hs⟩
    simp only [steadyManager, Option.some.injEq] at ho
    subst ho
    cases hs with
    | cons h _ => exact absurd h.1 (by decide)

/-! ## Malformed label selectors (C11) -/

/-- C11: for a selector that does not hold exactly one '=' (none, or more
than one), `getNodesWithLabel` returns the empty result, whatever the node
cache holds: no cached node is returned for a malformed selector. -/
theorem getNodesWithLabel_malformed_selector (crMgr : CRManager) (nodeMemberLabel : String)
    (h : nodeMemberLabel.data.count '=' ≠ 1) :
    getNodesWithLabel crMgr nodeMemberLabel = [] := by
  have hlen : (Split nodeMemberLabel '=').length ≠ 2 := by
    rw [Split_length]
    omega
  unfold getNodesWithLabel
  exact match_two_parts_default _ _ _ hlen

/-- Witness of C11: with the node `env=prod` in the cache, the selectors
`bad-label` (no '=') and `env=prod=x` (two '=') return nothing, while the
well-formed `env=prod` returns the node. -/
theorem getNodesWithLabel_malformed_selector_witness :
    getNodesWithLabel prodManager "bad-label" = [] ∧
      getNodesWithLabel prodManager "env=prod=x" = [] ∧
      getNodesWithLabel prodManager "env=prod" = [prodNode] :=
  ⟨getNodesWithLabel_malformed_selector prodManager "bad-label" (by decide),
   getNodesWithLabel_malformed_selector prodManager "env=prod=x" (by decide),
   by decide⟩

/-! ## Actions (C13, C19) -/

theorem createRuleAction_eq (rl : Rule) (rulesData : as3Rule) :
    createRuleAction rl rulesData =
      { rulesData with Actions := rulesData.Actions ++ rl.Actions.map ruleActionOf } := by
  unfold createRuleAction
  generalize rl.Actions = vs
  induction vs generalizing rulesData with
  | nil => simp
  | cons v vs ih => simp [ih]

theorem ruleActionOf_Replace (v : Action) :
    (ruleActionOf v).Replace =
      if v.Replace = true ∧ v.HTTPURI = true then some { Value := v.Value, Name := "" }
      else if v.Replace = true ∧ v.HTTPHost = true then some { Value := v.Value, Name := "host" }
      else none := by
  unfold ruleActionOf
  cases v.Replace <;> cases v.HTTPURI <;> cases v.HTTPHost <;>
    simp <;> (repeat' split) <;> rfl

theorem ruleActionOf_Typ (v : Action) :
    (ruleActionOf v).Typ =
      if v.HTTPURI = true then "httpUri"
      else if v.HTTPHost = true then "httpHeader"
      else if v.Redirect = true then "httpRedirect"
      else if v.Forward = true then "forward"
      else "" := by
  unfold ruleActionOf
  cases v.HTTPURI <;> cases v.HTTPHost <;> cases v.Redirect <;> cases v.Forward <;>
    simp <;> (repeat' split) <;> rfl

/-- C13: for the action at position `i` of a rule, `createRuleAction` emits at
the same position an action whose single replacement slot is filled as
follows. With the replace and URI flags set (the header flag set or not) the
replacement has the value of the action and no name, the URI branch writing
last; with the replace and header flags set and the URI flag unset it has the
value of the action and the name "host"; with replace unset, or with neither
the header nor the URI flag, there is no replacement. -/
theorem createRuleAction_replacement (rl : Rule) (rulesData : as3Rule) (i : Nat) (v : Action)
    (hi : rl.Actions[i]? = some v) :
    ∃ a, (createRuleAction rl rulesData).Actions[rulesData.Actions.length + i]? = some a ∧
      (v.Replace = true → v.HTTPURI = true →
        a.Replace = some { Value := v.Value, Name := "" }) ∧
      (v.Replace = true → v.HTTPHost = true → v.HTTPURI = false →
        a.Replace = some { Value := v.Value, Name := "host" }) ∧
      ((v.Replace = false ∨ (v.HTTPHost = false ∧ v.HTTPURI = false)) → a.Replace = none) := by
  refine ⟨ruleActionOf v, ?_, ?_, ?_, ?_⟩
  · rw [createRuleAction_eq]
    simp [List.getElem?_append_right, hi]
  · intro h1 h2
    rw [ruleActionOf_Replace]
    simp [h1, h2]
  · intro h1 h2 h3
    rw [ruleActionOf_Replace]
    simp [h1, h2, h3]
  · intro h
    rw [ruleActionOf_Replace]
    rcases h with h | ⟨h1, h2⟩
    · simp [h]
    · simp [h1, h2]

/-- Witness of C13: in the rule `rewrite` the action with replace and header
flags gets the replacement named "host"; the action with replace, header and
URI flags gets the replacement without a name; the forward action gets none. -/
theorem createRuleAction_replacement_witness :
    (createRuleAction rewriteRule { Name := "rewrite" }).Actions.map (fun a => a.Replace) =
        [some { Value := "new.example.com", Name := "host" },
         some { Value := "/new", Name := "" },
         none] ∧
      ∃ a, (createRuleAction rewriteRule { Name := "rewrite" }).Actions[0 + 1]? = some a ∧
        (bothRewriteAction.Replace = true → bothRewriteAction.HTTPURI = true →
          a.Replace = some { Value := bothRewriteAction.Value, Name := "" }) ∧
        (bothRewriteAction.Replace = true → bothRewriteAction.HTTPHost = true →
          bothRewriteAction.HTTPURI = false →
          a.Replace = some { Value := bothRewriteAction.Value, Name := "host" }) ∧
        ((bothRewriteAction.Replace = false ∨
            (bothRewriteAction.HTTPHost = false ∧ bothRewriteAction.HTTPURI = false)) →
          a.Replace = none) :=
  ⟨by decide,
   createRuleAction_replacement rewriteRule { Name := "rewrite" } 1 bothRewriteAction rfl⟩

/-- C19: `createRuleAction` emits exactly one action per input action, in
input order, after the actions the rule data already held; the type of the
action emitted for an input action is "httpUri" if its URI flag is set, else
"httpHeader" if its header flag is set, else "httpRedirect" if its redirect
flag is set, else "forward" if its forward flag is set, else the empty type. -/
theorem createRuleAction_type_precedence (rl : Rule) (rulesData : as3Rule) :
    (createRuleAction rl rulesData).Actions.length =
        rulesData.Actions.length + rl.Actions.length ∧
      ∀ (i : Nat) (v : Action), rl.Actions[i]? = some v →
        ∃ a, (createRuleAction rl rulesData).Actions[rulesData.Actions.length + i]? = some a ∧
          a.Typ =
            if v.HTTPURI = true then "httpUri"
            else if v.HTTPHost = true then "httpHeader"
            else if v.Redirect = true then "httpRedirect"
            else if v.Forward = true then "forward"
            else "" := by
  constructor
  · rw [createRuleAction_eq]
    simp
  · intro i v hi
    refine ⟨ruleActionOf v, ?_, ruleActionOf_Typ v⟩
    rw [createRuleAction_eq]
    simp [List.getElem?_append_right, hi]

/-- Witness of C19: the three actions of the rule `rewrite` are emitted in
order with the types "httpHeader", "httpUri" (URI before header) and
"forward"; an action with all four type flags is emitted as "httpUri". -/
theorem createRuleAction_type_precedence_witness :
    (createRuleAction rewriteRule { Name := "rewrite" }).Actions.map (fun a => a.Typ) =
        ["httpHeader", "httpUri", "forward"] ∧
      (createRuleAction
          { Actions := [{ Forward := true, Redirect := true, HTTPHost := true, HTTPURI := true }] }
          {}).Actions.map (fun a => a.Typ) = ["httpUri"] ∧
      (createRuleAction rewriteRule { Name := "rewrite" }).Actions.length = 0 + 3 :=
  ⟨by decide, by decide,
   (createRuleAction_type_precedence rewriteRule { Name := "rewrite" }).1⟩

/-! ## The index of a condition (C18) -/

theorem ruleConditionOf_Index (c : Condition) (port : Int) :
    (ruleConditionOf c port).Index =
      if c.Host = true then 0
      else if c.PathSegment = true then c.Index
      else if c.Path = true then c.Index
      else 0 := by
  unfold ruleConditionOf
  cases c.Host <;> cases c.PathSegment <;> cases c.Path <;>
    simp <;> (repeat' split) <;> rfl

/-- C18 as the claim states it fails: the path condition with index 3 of the
rule `indexed` is emitted with index 3, not 0; the host condition is emitted
with index 0 and the path-segment condition with its index 2. -/
theorem createRuleCondition_path_index_counterexample :
    pathConditionWithIndex.Path = true ∧ pathConditionWithIndex.Index = 3 ∧
      (createRuleCondition indexedRule { Name := "indexed" } 80).Conditions.map
        (fun cond => cond.Index) = [0, 2, 3] := by
  decide

/-- C18 as amended: `createRuleCondition` carries the index of the input
condition into the emitted condition for path-segment conditions and for path
conditions (the emitted index equals the input index); for a host condition
the emitted index is 0 whatever the input index is, and so it is for a
condition of no kind. The kind is decided in this order: host flag, then
path-segment flag, then path flag. -/
theorem createRuleCondition_index (rl : Rule) (rulesData : as3Rule) (port : Int)
    (i : Nat) (c : Condition) (hi : rl.Conditions[i]? = some c) :
    ∃ cond,
      (createRuleCondition rl rulesData port).Conditions[rulesData.Conditions.length + i]?
        = some cond ∧
      (c.Host = true → cond.Index = 0) ∧
      (c.Host = false → c.PathSegment = true → cond.Index = c.Index) ∧
      (c.Host = false → c.PathSegment = false → c.Path = true → cond.Index = c.Index) ∧
      (c.Host = false → c.PathSegment = false → c.Path = false → cond.Index = 0) := by
  refine ⟨ruleConditionOf c port, ?_, ?_, ?_, ?_, ?_⟩
  · rw [createRuleCondition_eq]
    simp [List.getElem?_append_right, hi]
  · intro h
    rw [ruleConditionOf_Index]
    simp [h]
  · intro h1 h2
    rw [ruleConditionOf_Index]
    simp [h1, h2]
  · intro h1 h2 h3
    rw [ruleConditionOf_Index]
    simp [h1, h2, h3]
  · intro h1 h2 h3
    rw [ruleConditionOf_Index]
    simp [h1, h2, h3]

/-- Witness of C18 as amended: the path condition at position 2 of the rule
`indexed` is emitted at position 2 with its index 3. -/
theorem createRuleCondition_index_witness :
    ∃ cond,
      (createRuleCondition indexedRule { Name := "indexed" } 8080).Conditions[0 + 2]?
        = some cond ∧ cond.Index = 3 := by
  obtain ⟨cond, h, _, _, h3, _⟩ :=
    createRuleCondition_index indexedRule { Name := "indexed" } 8080 2 pathConditionWithIndex rfl
  exact ⟨cond, h, h3 rfl rfl rfl⟩

/-! ## Writes to the shared application -/

theorem mapGet_foldl_mapSet_of_not_mem {α : Type} (writes : List (String × α))
    (app : List (String × α)) (k : String) (h : k ∉ mapKeys writes) :
    mapGet (writes.foldl (fun (m : List (String × α)) (kv : String × α) => mapSet m kv.1 kv.2)
      app) k = mapGet app k := by
  induction writes generalizing app with
  | nil => rfl
  | cons w ws ih =>
    have hw : w.1 ≠ k := fun e => h (by simp [mapKeys, e])
    have hws : k ∉ mapKeys ws := fun e => h (by
      simp only [mapKeys, List.map_cons, List.mem_cons]
      exact Or.inr e)
    simp only [List.foldl_cons]
    rw [ih _ hws, mapGet_mapSet_other _ _ _ _ hw]

theorem mapGet_foldl_mapSet_last {α : Type} (pre post : List (String × α))
    (app : List (String × α)) (k : String) (v : α) (h : k ∉ mapKeys post) :
    mapGet ((pre ++ (k, v) :: post).foldl
      (fun (m : List (String × α)) (kv : String × α) => mapSet m kv.1 kv.2) app) k = some v := by
  rw [List.foldl_append, List.foldl_cons, mapGet_foldl_mapSet_of_not_mem post _ k h]
  exact mapGet_mapSet_self _ _ _

theorem foldl_mapSet_keys_nodup {α : Type} (writes : List (String × α))
    (app : List (String × α)) (h : (mapKeys app).Nodup) :
    (mapKeys (writes.foldl
      (fun (m : List (String × α)) (kv : String × α) => mapSet m kv.1 kv.2) app)).Nodup := by
  induction writes generalizing app with
  | nil => exact h
  | cons w ws ih => exact ih _ (mapSet_nodup app w.1 w.2 h)

theorem createPoliciesDecl_eq (cfg : ResourceConfig) (sharedApp : as3Application) :
    createPoliciesDecl cfg sharedApp =
      (emittedPolicies cfg).foldl
        (fun (m : as3Application) (kv : String × as3Value) => mapSet m kv.1 kv.2) sharedApp := by
  simp [createPoliciesDecl, emittedPolicies, List.foldl_map]

theorem createPoolDecl_eq (cfg : ResourceConfig) (sharedApp : as3Application) :
    createPoolDecl cfg sharedApp =
      (emittedPools cfg).foldl
        (fun (m : as3Application) (kv : String × as3Value) => mapSet m kv.1 kv.2) sharedApp := by
  simp [createPoolDecl, emittedPools, List.foldl_map]

theorem processResourcesForAS3_eq (DEFAULT_PARTITION : String) (rsCfgs : ResourceConfigs)
    (sharedApp : as3Application) :
    processResourcesForAS3 DEFAULT_PARTITION rsCfgs sharedApp =
      (allEmittedObjects DEFAULT_PARTITION rsCfgs).foldl
        (fun (m : as3Application) (kv : String × as3Value) => mapSet m kv.1 kv.2) sharedApp := by
  unfold processResourcesForAS3 allEmittedObjects
  induction rsCfgs generalizing sharedApp with
  | nil => rfl
  | cons cfg rest ih =>
    simp only [List.foldl_cons, List.map_cons, List.flatten_cons, List.foldl_append]
    rw [ih]
    simp [emittedObjects, createServiceDecl, createPoolDecl_eq, createPoliciesDecl_eq,
      List.foldl_append]

theorem mapKeys_allEmittedObjects (DEFAULT_PARTITION : String) (rsCfgs : ResourceConfigs) :
    mapKeys (allEmittedObjects DEFAULT_PARTITION rsCfgs) = emittedNames rsCfgs := by
  unfold allEmittedObjects emittedNames mapKeys
  induction rsCfgs with
  | nil => rfl
  | cons cfg rest ih =>
    simp only [List.map_cons, List.flatten_cons, List.map_append, ih]
    simp [emittedObjects, emittedPolicies, emittedPools, Function.comp_def]

/-! ## Policies (C12) -/

theorem foldl_endpointPolicy (pl : Policy) (port : Int) (rules : List Rule)
    (ep : as3EndpointPolicy) (h : rules ≠ []) :
    rules.foldl
      (fun (ep : as3EndpointPolicy) (rl : Rule) =>
        let ep := { ep with Class := "Endpoint_Policy" }
        let ep := { ep with Strategy := lastSegment pl.Strategy '/' }
        let rulesData : as3Rule := { Name := rl.Name }
        let rulesData := createRuleCondition rl rulesData port
        let rulesData := createRuleAction rl rulesData
        { ep with Rules := ep.Rules ++ [rulesData] })
      ep =
    { Class := "Endpoint_Policy", Strategy := lastSegment pl.Strategy '/',
      Rules := ep.Rules ++ rules.map (fun rl =>
        createRuleAction rl (createRuleCondition rl { Name := rl.Name } port)) } := by
  induction rules generalizing ep with
  | nil => exact absurd rfl h
  | cons rl rest ih =>
    cases rest with
    | nil => simp
    | cons r2 rest2 =>
      rw [List.foldl_cons, ih _ (by simp)]
      simp

theorem endpointPolicyOf_of_rules (pl : Policy) (port : Int) (h : pl.Rules ≠ []) :
    endpointPolicyOf pl port =
      { Class := "Endpoint_Policy", Strategy := lastSegment pl.Strategy '/',
        Rules := pl.Rules.map (fun rl =>
          createRuleAction rl (createRuleCondition rl { Name := rl.Name } port)) } := by
  unfold endpointPolicyOf
  rw [foldl_endpointPolicy pl port pl.Rules {} h]
  simp

theorem ruleData_Name (rl : Rule) (port : Int) :
    (createRuleAction rl (createRuleCondition rl { Name := rl.Name } port)).Name = rl.Name := by
  rw [createRuleAction_eq, createRuleCondition_eq]

/-- C12 (code departs from the claim): for a policy without rules
`createPoliciesDecl` stores under the name of the policy an endpoint policy
whose class and strategy are empty: both are assigned inside the loop over the
rules, which does not run. The class is not "Endpoint_Policy" and the strategy
is not the last segment of the strategy reference. -/
theorem createPoliciesDecl_policy_without_rules (cfg : ResourceConfig)
    (sharedApp : as3Application) (pre post : List Policy) (pl : Policy)
    (hp : cfg.Policies = pre ++ pl :: post) (hrules : pl.Rules = [])
    (hlast : ∀ q ∈ post, q.Name ≠ pl.Name) :
    mapGet (createPoliciesDecl cfg sharedApp) pl.Name =
      some (as3Value.policy { Class := "", Strategy := "", Rules := [] }) := by
  have hobj : endpointPolicyOf pl (extractVirtualAddressAndPort cfg.Virtual.Destination).2
      = { Class := "", Strategy := "", Rules := [] } := by
    simp [endpointPolicyOf, hrules]
  rw [createPoliciesDecl_eq]
  simp only [emittedPolicies, hp, List.map_append, List.map_cons, hobj]
  apply mapGet_foldl_mapSet_last
  intro hmem
  simp only [mapKeys, List.map_map, List.mem_map, Function.comp_apply] at hmem
  obtain ⟨q, hq, hname⟩ := hmem
  exact hlast q hq hname

/-- Witness of C12: the resource whose only policy `policy0` has the strategy
reference `/Common/first-match` and no rule gets, under `policy0`, an object
with empty class and empty strategy. -/
theorem createPoliciesDecl_policy_without_rules_witness :
    emptyPolicy.Strategy = "/Common/first-match" ∧
      mapGet (createPoliciesDecl emptyPolicyConfig []) "policy0" =
        some (as3Value.policy { Class := "", Strategy := "", Rules := [] }) :=
  ⟨rfl, createPoliciesDecl_policy_without_rules emptyPolicyConfig [] [] [] emptyPolicy rfl rfl
    (by simp)⟩

theorem createPoliciesDecl_policy_with_rules (cfg : ResourceConfig)
    (sharedApp : as3Application) (pre post : List Policy) (pl : Policy)
    (hp : cfg.Policies = pre ++ pl :: post) (hrules : pl.Rules ≠ [])
    (hlast : ∀ q ∈ post, q.Name ≠ pl.Name) :
    ∃ ep, mapGet (createPoliciesDecl cfg sharedApp) pl.Name = some (as3Value.policy ep) ∧
      ep.Class = "Endpoint_Policy" ∧ ep.Strategy = lastSegment pl.Strategy '/' ∧
      ep.Rules.map (fun r => r.Name) = pl.Rules.map (fun rl => rl.Name) := by
  refine ⟨endpointPolicyOf pl (extractVirtualAddressAndPort cfg.Virtual.Destination).2,
    ?_, ?_, ?_, ?_⟩
  · rw [createPoliciesDecl_eq]
    simp only [emittedPolicies, hp, List.map_append, List.map_cons]
    apply mapGet_foldl_mapSet_last
    intro hmem
    simp only [mapKeys, List.map_map, List.mem_map, Function.comp_apply] at hmem
    obtain ⟨q, hq, hname⟩ := hmem
    exact hlast q hq hname
  · rw [endpointPolicyOf_of_rules pl _ hrules]
  · rw [endpointPolicyOf_of_rules pl _ hrules]
  · rw [endpointPolicyOf_of_rules pl _ hrules]
    simp [Function.comp_def, ruleData_Name]

/-! ## Pools (C15) -/

theorem poolOf_eq (v : Pool) :
    poolOf v =
      { Class := "Pool",
        Members := v.Members.map (fun val =>
          ({ AddressDiscovery := "static", ServicePort := val.Port,
             ServerAddresses := [val.Address] } : as3PoolMember)) } := by
  unfold poolOf
  have key : ∀ (ms : List Member) (pool : as3Pool),
      ms.foldl
        (fun (pool : as3Pool) (val : Member) =>
          let member : as3PoolMember := {}
          let member := { member with AddressDiscovery := "static" }
          let member := { member with ServicePort := val.Port }
          let member := { member with ServerAddresses := member.ServerAddresses ++ [val.Address] }
          { pool with Members := pool.Members ++ [member] })
        pool =
      { pool with Members := pool.Members ++ ms.map (fun val =>
          ({ AddressDiscovery := "static", ServicePort := val.Port,
             ServerAddresses := [val.Address] } : as3PoolMember)) } := by
    intro ms
    induction ms with
    | nil => simp
    | cons m rest ih =>
      intro pool
      rw [List.foldl_cons, ih]
      simp
  rw [key]
  simp

theorem createPoolDecl_split (cfg : ResourceConfig) (sharedApp : as3Application)
    (front back : List Pool) (hp : cfg.Pools = front ++ back) :
    createPoolDecl cfg sharedApp =
      createPoolDecl { cfg with Pools := back }
        (createPoolDecl { cfg with Pools := front } sharedApp) := by
  simp [createPoolDecl, hp, List.foldl_append]

/-- C15: for a pool `v` of a resource, `createPoolDecl` stores under the name
of the pool an object of class "Pool" whose member list has the length of the
input member list and whose i-th entry has address discovery "static", the
port of the i-th input member as service port and the one-element list of its
address as server addresses. The object is under that name once the pool has
been processed, and still is at the end when no later pool of the resource
has the same name (the rest of the loop only writes the later pools). -/
theorem createPoolDecl_stores_pool (cfg : ResourceConfig) (sharedApp : as3Application)
    (pre post : List Pool) (v : Pool) (hp : cfg.Pools = pre ++ v :: post) :
    ∃ p : as3Pool,
      p.Class = "Pool" ∧ p.Members.length = v.Members.length ∧
      (∀ (i : Nat) (m : Member), v.Members[i]? = some m →
        p.Members[i]? = some { AddressDiscovery := "static", ServicePort := m.Port,
                               ServerAddresses := [m.Address] }) ∧
      mapGet (createPoolDecl { cfg with Pools := pre ++ [v] } sharedApp) v.Name
        = some (as3Value.pool p) ∧
      createPoolDecl cfg sharedApp =
        createPoolDecl { cfg with Pools := post }
          (createPoolDecl { cfg with Pools := pre ++ [v] } sharedApp) ∧
      ((∀ w ∈ post, w.Name ≠ v.Name) →
        mapGet (createPoolDecl cfg sharedApp) v.Name = some (as3Value.pool p)) := by
  refine ⟨poolOf v, ?_, ?_, ?_, ?_, ?_, ?_⟩
  · rw [poolOf_eq]
  · rw [poolOf_eq]
    simp
  · intro i m hm
    rw [poolOf_eq]
    simp [hm]
  · rw [createPoolDecl_eq]
    simp only [emittedPools, List.map_append, List.map_cons, List.map_nil]
    exact mapGet_foldl_mapSet_last _ [] _ _ _ (by simp [mapKeys])
  · exact createPoolDecl_split cfg sharedApp (pre ++ [v]) post (by simp [hp])
  · intro hlast
    rw [createPoolDecl_eq]
    simp only [emittedPools, hp, List.map_append, List.map_cons]
    apply mapGet_foldl_mapSet_last
    intro hmem
    simp only [mapKeys, List.map_map, List.mem_map, Function.comp_apply] at hmem
    obtain ⟨w, hw, hname⟩ := hmem
    exact hlast w hw hname

/-- Witness of C15: the pool `pool1` with the members 10.1.0.1:8080 and
10.1.0.2:8081 is stored as a "Pool" object with two static members in the
same order. -/
theorem createPoolDecl_stores_pool_witness :
    createPoolDecl poolNamedVirtualConfig [] =
        [("pool1", as3Value.pool
          { Class := "Pool",
            Members := [{ AddressDiscovery := "static", ServicePort := 8080,
                          ServerAddresses := ["10.1.0.1"] },
                        { AddressDiscovery := "static", ServicePort := 8081,
                          ServerAddresses := ["10.1.0.2"] }] })] ∧
      ∃ p : as3Pool,
        p.Class = "Pool" ∧ p.Members.length = 2 ∧
        mapGet (createPoolDecl poolNamedVirtualConfig []) "pool1" = some (as3Value.pool p) := by
  refine ⟨by decide, ?_⟩
  obtain ⟨p, h1, h2, _, _, _, h6⟩ :=
    createPoolDecl_stores_pool poolNamedVirtualConfig [] [] [] examplePool rfl
  exact ⟨p, h1, h2, h6 (by simp)⟩

/-! ## Services: defaults and malformed destinations (C14) -/

theorem foldl_IRules_eq (irules : List String) (svc : as3Service) :
    irules.foldl
      (fun (svc : as3Service) (v : String) =>
        { svc with IRules := svc.IRules ++ [lastSegment v '/'] }) svc =
      { svc with IRules := svc.IRules ++ irules.map (fun v => lastSegment v '/') } := by
  induction irules generalizing svc with
  | nil => simp
  | cons v vs ih => simp [ih]

theorem foldl_service_VirtualAddresses {α : Type} (g : as3Service → α → as3Service)
    (hg : ∀ s a, (g s a).VirtualAddresses = s.VirtualAddresses) (xs : List α) (s : as3Service) :
    (xs.foldl g s).VirtualAddresses = s.VirtualAddresses := by
  induction xs generalizing s with
  | nil => rfl
  | cons x xs ih => simp [ih, hg]

theorem foldl_service_VirtualPort {α : Type} (g : as3Service → α → as3Service)
    (hg : ∀ s a, (g s a).VirtualPort = s.VirtualPort) (xs : List α) (s : as3Service) :
    (xs.foldl g s).VirtualPort = s.VirtualPort := by
  induction xs generalizing s with
  | nil => rfl
  | cons x xs ih => simp [ih, hg]

theorem serviceOf_defaults (DEFAULT_PARTITION : String) (cfg : ResourceConfig) :
    (serviceOf DEFAULT_PARTITION cfg).Source = "0.0.0.0/0" ∧
    (serviceOf DEFAULT_PARTITION cfg).SNAT = "auto" ∧
    (serviceOf DEFAULT_PARTITION cfg).TranslateServerAddress = true ∧
    (serviceOf DEFAULT_PARTITION cfg).TranslateServerPort = true ∧
    (serviceOf DEFAULT_PARTITION cfg).Class = "Service_HTTP" := by
  unfold serviceOf
  simp only [foldl_IRules_eq]
  refine ⟨?_, ?_, ?_, ?_, ?_⟩ <;> first | trivial | rfl | (split <;> rfl)

theorem serviceOf_address (DEFAULT_PARTITION : String) (cfg : ResourceConfig) :
    (serviceOf DEFAULT_PARTITION cfg).VirtualAddresses =
        (if (extractVirtualAddressAndPort cfg.Virtual.Destination).1 ≠ "" ∧
            (extractVirtualAddressAndPort cfg.Virtual.Destination).2 ≠ 0
         then [(extractVirtualAddressAndPort cfg.Virtual.Destination).1] else []) ∧
    (serviceOf DEFAULT_PARTITION cfg).VirtualPort =
        (if (extractVirtualAddressAndPort cfg.Virtual.Destination).1 ≠ "" ∧
            (extractVirtualAddressAndPort cfg.Virtual.Destination).2 ≠ 0
         then (extractVirtualAddressAndPort cfg.Virtual.Destination).2 else 0) := by
  unfold serviceOf
  simp only [foldl_IRules_eq]
  by_cases hc : (extractVirtualAddressAndPort cfg.Virtual.Destination).1 ≠ "" ∧
      (extractVirtualAddressAndPort cfg.Virtual.Destination).2 ≠ 0
  · simp only [if_pos hc]
    by_cases h1 : cfg.Virtual.Policies.length = 1
    · simp [h1]
    · by_cases h2 : cfg.Virtual.Policies.length > 1
      · simp [h1, h2, foldl_service_VirtualAddresses]
      · simp only [h1, h2, if_false]
        constructor <;> first | trivial | (split <;> (try split) <;> simp)
  · simp only [if_neg hc]
    by_cases h1 : cfg.Virtual.Policies.length = 1
    · simp [h1]
    · by_cases h2 : cfg.Virtual.Policies.length > 1
      · simp [h1, h2, foldl_service_VirtualAddresses, foldl_service_VirtualPort]
      · simp only [h1, h2, if_false]
        constructor <;> first | trivial | (split <;> (try split) <;> simp)

theorem extractVirtualAddressAndPort_of_count (str : String)
    (h : (lastSegment str '/').data.count ':' ≠ 1) :
    extractVirtualAddressAndPort str = ("", 0) := by
  have hlen : (Split (lastSegment str '/') ':').length ≠ 2 := by
    rw [Split_length]
    omega
  unfold extractVirtualAddressAndPort
  exact match_two_parts_default _ _ _ hlen

/-- C14: `createServiceDecl` stores under the name of the virtual a service
object with source "0.0.0.0/0", SNAT "auto", translate-address true,
translate-port true and class "Service_HTTP", for every resource. When the
destination is malformed (its last segment has no ':' or more than one, or
more generally the parse gives an empty address or the port 0) the object is
stored all the same, with no virtual address and the port 0. -/
theorem createServiceDecl_defaults (DEFAULT_PARTITION : String) (cfg : ResourceConfig)
    (sharedApp : as3Application) :
    ∃ svc : as3Service,
      mapGet (createServiceDecl DEFAULT_PARTITION cfg sharedApp) cfg.Virtual.Name
        = some (as3Value.service svc) ∧
      svc.Source = "0.0.0.0/0" ∧ svc.SNAT = "auto" ∧
      svc.TranslateServerAddress = true ∧ svc.TranslateServerPort = true ∧
      svc.Class = "Service_HTTP" ∧
      ((lastSegment cfg.Virtual.Destination '/').data.count ':' ≠ 1 →
        svc.VirtualAddresses = [] ∧ svc.VirtualPort = 0) ∧
      (((extractVirtualAddressAndPort cfg.Virtual.Destination).1 = "" ∨
          (extractVirtualAddressAndPort cfg.Virtual.Destination).2 = 0) →
        svc.VirtualAddresses = [] ∧ svc.VirtualPort = 0) := by
  obtain ⟨h1, h2, h3, h4, h5⟩ := serviceOf_defaults DEFAULT_PARTITION cfg
  obtain ⟨ha, hp⟩ := serviceOf_address DEFAULT_PARTITION cfg
  have hbad : ((extractVirtualAddressAndPort cfg.Virtual.Destination).1 = "" ∨
      (extractVirtualAddressAndPort cfg.Virtual.Destination).2 = 0) →
      (serviceOf DEFAULT_PARTITION cfg).VirtualAddresses = [] ∧
        (serviceOf DEFAULT_PARTITION cfg).VirtualPort = 0 := by
    intro h
    have hn : ¬ ((extractVirtualAddressAndPort cfg.Virtual.Destination).1 ≠ "" ∧
        (extractVirtualAddressAndPort cfg.Virtual.Destination).2 ≠ 0) := by
      rintro ⟨n1, n2⟩
      rcases h with h | h
      · exact n1 h
      · exact n2 h
    rw [ha, hp, if_neg hn, if_neg hn]
    exact ⟨rfl, rfl⟩
  refine ⟨serviceOf DEFAULT_PARTITION cfg, mapGet_mapSet_self _ _ _, h1, h2, h3, h4, h5, ?_, hbad⟩
  intro hcount
  apply hbad
  rw [extractVirtualAddressAndPort_of_count _ hcount]
  exact Or.inl rfl

/-- Witness of C14: the resource whose destination `/k8s/10.0.0.1` has no
port gets, under the name of its virtual, a service with the defaults, no
virtual address and port 0. -/
theorem createServiceDecl_defaults_witness :
    mapGet (createServiceDecl "k8s_AS3" poolNamedVirtualConfig []) "pool1" =
        some (as3Value.service
          { Source := "0.0.0.0/0", SNAT := "auto", TranslateServerAddress := true,
            TranslateServerPort := true, Class := "Service_HTTP",
            VirtualAddresses := [], VirtualPort := 0,
            Pool := "/k8s_AS3/Shared/pool1" }) ∧
      ∃ svc : as3Service,
        mapGet (createServiceDecl "k8s_AS3" poolNamedVirtualConfig []) "pool1"
          = some (as3Value.service svc) ∧
        svc.VirtualAddresses = [] ∧ svc.VirtualPort = 0 := by
  refine ⟨by decide, ?_⟩
  obtain ⟨svc, h, _, _, _, _, _, hbad, _⟩ :=
    createServiceDecl_defaults "k8s_AS3" poolNamedVirtualConfig []
  exact ⟨svc, h, hbad (by decide)⟩

/-! ## Name collisions in the shared application (C16, C17) -/

theorem processResourcesForAS3_last_write (DEFAULT_PARTITION : String)
    (rsCfgs : ResourceConfigs) (sharedApp : as3Application)
    (pre post : List (String × as3Value)) (k : String) (v : as3Value)
    (hw : allEmittedObjects DEFAULT_PARTITION rsCfgs = pre ++ (k, v) :: post)
    (hlast : k ∉ mapKeys post) :
    mapGet (processResourcesForAS3 DEFAULT_PARTITION rsCfgs sharedApp) k = some v := by
  rw [processResourcesForAS3_eq, hw]
  exact mapGet_foldl_mapSet_last pre post sharedApp k v hlast

theorem processResourcesForAS3_untouched (DEFAULT_PARTITION : String)
    (rsCfgs : ResourceConfigs) (sharedApp : as3Application) (k : String)
    (h : k ∉ emittedNames rsCfgs) :
    mapGet (processResourcesForAS3 DEFAULT_PARTITION rsCfgs sharedApp) k = mapGet sharedApp k := by
  rw [processResourcesForAS3_eq]
  apply mapGet_foldl_mapSet_of_not_mem
  rw [mapKeys_allEmittedObjects]
  exact h

/-- C16: the shared application holds, under every name, the object written
last under that name and nothing of an earlier one, the writes being those of
the resources in input order and, within one resource, of its policies, then
its pools, then its service (`allEmittedObjects`). A name is never held
twice, and a name that is not written keeps what it held. In particular a
resource whose virtual has the name of one of its own pools or policies ends
with its service under that name, unless a later resource writes the name. -/
theorem processResourcesForAS3_later_write_wins (DEFAULT_PARTITION : String)
    (rsCfgs : ResourceConfigs) (sharedApp : as3Application) :
    (∀ (pre post : List (String × as3Value)) (k : String) (v : as3Value),
        allEmittedObjects DEFAULT_PARTITION rsCfgs = pre ++ (k, v) :: post →
        k ∉ mapKeys post →
        mapGet (processResourcesForAS3 DEFAULT_PARTITION rsCfgs sharedApp) k = some v) ∧
    (∀ k, k ∉ emittedNames rsCfgs →
        mapGet (processResourcesForAS3 DEFAULT_PARTITION rsCfgs sharedApp) k
          = mapGet sharedApp k) ∧
    ((mapKeys sharedApp).Nodup →
        (mapKeys (processResourcesForAS3 DEFAULT_PARTITION rsCfgs sharedApp)).Nodup) ∧
    (∀ (before after : ResourceConfigs) (cfg : ResourceConfig),
        rsCfgs = before ++ cfg :: after →
        cfg.Virtual.Name ∉ emittedNames after →
        mapGet (processResourcesForAS3 DEFAULT_PARTITION rsCfgs sharedApp) cfg.Virtual.Name
          = some (as3Value.service (serviceOf DEFAULT_PARTITION cfg))) := by
  refine ⟨?_, ?_, ?_, ?_⟩
  · intro pre post k v hw hlast
    exact processResourcesForAS3_last_write DEFAULT_PARTITION rsCfgs sharedApp pre post k v hw hlast
  · intro k hk
    exact processResourcesForAS3_untouched DEFAULT_PARTITION rsCfgs sharedApp k hk
  · intro hnd
    rw [processResourcesForAS3_eq]
    exact foldl_mapSet_keys_nodup _ _ hnd
  · intro before after cfg hsplit hafter
    apply processResourcesForAS3_last_write DEFAULT_PARTITION rsCfgs sharedApp
      (allEmittedObjects DEFAULT_PARTITION before ++ (emittedPolicies cfg ++ emittedPools cfg))
      (allEmittedObjects DEFAULT_PARTITION after)
    · simp [hsplit, allEmittedObjects, emittedObjects]
    · rw [mapKeys_allEmittedObjects]
      exact hafter

/-- Witness of C16: the resource whose virtual and pool are both named
`pool1` ends with the service, not the pool, under `pool1`; when a later
resource has a pool named `pool1` that pool is what the name holds. -/
theorem processResourcesForAS3_later_write_wins_witness :
    mapGet (processResourcesForAS3 "k8s_AS3" [poolNamedVirtualConfig] []) "pool1" =
        some (as3Value.service (serviceOf "k8s_AS3" poolNamedVirtualConfig)) ∧
      mapKeys (processResourcesForAS3 "k8s_AS3" [poolNamedVirtualConfig] []) = ["pool1"] ∧
      mapGet (processResourcesForAS3 "k8s_AS3" [poolNamedVirtualConfig, laterPoolConfig] [])
          "pool1" =
        some (as3Value.pool
          { Class := "Pool",
            Members := [{ AddressDiscovery := "static", ServicePort := 9090,
                          ServerAddresses := ["10.2.0.1"] }] }) :=
  ⟨(processResourcesForAS3_later_write_wins "k8s_AS3" [poolNamedVirtualConfig] []).2.2.2
      [] [] poolNamedVirtualConfig rfl (by decide),
   by decide, by decide⟩

/-- C17 as the claim states it fails: for a resource whose virtual is named
`class`, the "class" entry of the Shared application is the service object of
that virtual, not "Application"; the tenant still has class "Tenant", and
the "template" entry still is "shared". -/
theorem createAS3ADC_class_overwritten_counterexample :
    createAS3ADC "k8s_AS3" [classNamedVirtualConfig] =
      [("k8s_AS3", as3ADCValue.tenant
        [("class", as3TenantValue.str "Tenant"),
         ("Shared", as3TenantValue.application
            [("class", as3Value.service
                { Source := "0.0.0.0/0", SNAT := "auto", TranslateServerAddress := true,
                  TranslateServerPort := true, Class := "Service_HTTP",
                  VirtualAddresses := ["10.0.0.1"], VirtualPort := 80 }),
             ("template", as3Value.str "shared")])])] := by
  decide

/-- C17 as amended: the tenant that `createAS3ADC` emits under the partition
key has class "Tenant" and holds a "Shared" application; the "class" entry of
that application is "Application" when no policy, pool or virtual of the
resources is named "class", and its "template" entry is "shared" when none is
named "template". An object written under one of these two names takes the
place of the entry. -/
theorem createAS3ADC_tenant (DEFAULT_PARTITION : String) (rsCfgs : ResourceConfigs) :
    ∃ (tenant : as3Tenant) (app : as3Application),
      mapGet (createAS3ADC DEFAULT_PARTITION rsCfgs) DEFAULT_PARTITION
        = some (as3ADCValue.tenant tenant) ∧
      mapGet tenant "class" = some (as3TenantValue.str "Tenant") ∧
      mapGet tenant "Shared" = some (as3TenantValue.application app) ∧
      ("class" ∉ emittedNames rsCfgs → mapGet app "class" = some (as3Value.str "Application")) ∧
      ("template" ∉ emittedNames rsCfgs → mapGet app "template" = some (as3Value.str "shared")) ∧
      (∀ (pre post : List (String × as3Value)) (k : String) (v : as3Value),
        allEmittedObjects DEFAULT_PARTITION rsCfgs = pre ++ (k, v) :: post →
        k ∉ mapKeys post → mapGet app k = some v) := by
  refine ⟨[("class", as3TenantValue.str "Tenant"),
      ("Shared", as3TenantValue.application (processResourcesForAS3 DEFAULT_PARTITION rsCfgs
        [("class", as3Value.str "Application"), ("template", as3Value.str "shared")]))],
    processResourcesForAS3 DEFAULT_PARTITION rsCfgs
      [("class", as3Value.str "Application"), ("template", as3Value.str "shared")],
    ?_, ?_, ?_, ?_, ?_, ?_⟩
  · simp [createAS3ADC, mapSet, mapGet, as3SharedApplication]
  · simp [mapSet, mapGet, as3SharedApplication]
  · simp [mapSet, mapGet, as3SharedApplication]
  · intro h
    rw [processResourcesForAS3_untouched _ _ _ _ h]
    simp [mapGet]
  · intro h
    rw [processResourcesForAS3_untouched _ _ _ _ h]
    simp [mapGet]
  · intro pre post k v hw hlast
    exact processResourcesForAS3_last_write _ _ _ pre post k v hw hlast

/-- Witness of C17 as amended: for the end-to-end resource, none of whose
objects is named "class" or "template", the Shared application of the tenant
under `k8s_AS3` has the entries "Application" and "shared". -/
theorem createAS3ADC_tenant_witness :
    ∃ (tenant : as3Tenant) (app : as3Application),
      mapGet (createAS3ADC "k8s_AS3" [exampleConfig]) "k8s_AS3"
        = some (as3ADCValue.tenant tenant) ∧
      mapGet tenant "class" = some (as3TenantValue.str "Tenant") ∧
      mapGet tenant "Shared" = some (as3TenantValue.application app) ∧
      mapGet app "class" = some (as3Value.str "Application") ∧
      mapGet app "template" = some (as3Value.str "shared") := by
  obtain ⟨tenant, app, h1, h2, h3, h4, h5, _⟩ := createAS3ADC_tenant "k8s_AS3" [exampleConfig]
  exact ⟨tenant, app, h1, h2, h3, h4 (by decide), h5 (by decide)⟩

/-! ## The first post of an agent (C20) -/

/-- C20: when `json.Marshal` gives a text that is not empty for every
configuration and `json.Unmarshal` rejects the empty text, then for an agent
whose cached declaration is the empty string and for every resource set (the
empty one included) the synthesized declaration is not empty, `DeepEqualJSON`
of the empty string and it is false, and `PostConfig` writes it to the config
writer, exactly once, and sets the cache to it. -/
theorem PostConfig_from_empty_cache {τ : Type} [DecidableEq τ] (json : JSONCodec τ)
    (hmarshal : ∀ cfg, ∃ s, json.Marshal cfg = some s ∧ s ≠ "")
    (hempty : json.Unmarshal "" = none)
    (DEFAULT_PARTITION : String) (GetAllPoolMembers : ResourceConfigs → List Member)
    (env : PostEnv) (agent : Agent) (rsCfgs : ResourceConfigs)
    (hcache : agent.activeDecl = "") :
    createAS3Declaration json DEFAULT_PARTITION rsCfgs ≠ "" ∧
      DeepEqualJSON json "" (createAS3Declaration json DEFAULT_PARTITION rsCfgs) = false ∧
      (PostConfig json DEFAULT_PARTITION GetAllPoolMembers env agent rsCfgs).written =
        agent.written ++ [(createAS3Declaration json DEFAULT_PARTITION rsCfgs, env.writeOk)] ∧
      (PostConfig json DEFAULT_PARTITION GetAllPoolMembers env agent rsCfgs).activeDecl =
        createAS3Declaration json DEFAULT_PARTITION rsCfgs := by
  have hne : createAS3Declaration json DEFAULT_PARTITION rsCfgs ≠ "" := by
    obtain ⟨s, hs, hs'⟩ := hmarshal (as3ConfigOf DEFAULT_PARTITION rsCfgs)
    simp [createAS3Declaration, hs, hs']
  have hd : DeepEqualJSON json "" (createAS3Declaration json DEFAULT_PARTITION rsCfgs) = false := by
    unfold DeepEqualJSON
    simp [hne, hempty]
  have hd' : DeepEqualJSON json agent.activeDecl
      (createAS3Declaration json DEFAULT_PARTITION rsCfgs) = false := by
    rw [hcache]
    exact hd
  refine ⟨hne, hd, ?_, PostConfig_activeDecl json DEFAULT_PARTITION GetAllPoolMembers env agent
    rsCfgs hd'⟩
  unfold PostConfig
  simp only [hd']
  cases agent.EventChan with
  | none => simp
  | some taken =>
    by_cases hr : env.received = true <;> simp [hr]

/-- Witness of C20: with the example codec the agent `NewAgent` creates posts
the empty resource set: the declaration of the base configuration with an
empty tenant is written once and becomes the cache. -/
theorem PostConfig_from_empty_cache_witness :
    (NewAgent "k8s").activeDecl = "" ∧
      createAS3Declaration exampleCodec "k8s_AS3" [] ≠ "" ∧
      DeepEqualJSON exampleCodec "" (createAS3Declaration exampleCodec "k8s_AS3" []) = false ∧
      (PostConfig exampleCodec "k8s_AS3" exampleGetAllPoolMembers ⟨false, false⟩
          (NewAgent "k8s") []).written =
        [] ++ [(createAS3Declaration exampleCodec "k8s_AS3" [], false)] ∧
      (PostConfig exampleCodec "k8s_AS3" exampleGetAllPoolMembers ⟨false, false⟩
          (NewAgent "k8s") []).activeDecl =
        createAS3Declaration exampleCodec "k8s_AS3" [] :=
  ⟨rfl,
   PostConfig_from_empty_cache exampleCodec
    (fun cfg => by
      unfold exampleCodec
      simp only []
      split
      · exact ⟨_, rfl, by
          intro h
          have hlen := congrArg String.length h
          simp only [String.length_append] at hlen
          have h0 : ("declaration:" : String).length = 12 := by decide
          have h1 : ("" : String).length = 0 := by decide
          omega⟩
      · exact ⟨_, rfl, by decide⟩)
    rfl "k8s_AS3" exampleGetAllPoolMembers ⟨false, false⟩ (NewAgent "k8s") [] rfl⟩

end crmanager
